import Mathlib

/-!
# stern-ui: session setup of the log-streaming gateway (`main.go`)

A shallow embedding of the session-setup path of `main.go`: the parameter
parsers (`parseNumericParams`, `buildNamespaceList`, `parseSelectors`,
`parseContainerStates`, `compileRegexList`, `parseRegexFilters`), the
`WebSocketWriter` and the main goroutine of `streamLogs`.

Conventions.
* A Go `string` is a Lean `String`: a sequence of Unicode code points (the
  parameters are taken to be valid UTF-8).  A Go `[]byte` is a `List UInt8`.
* A Go `error` is the text of its `Error()` method; `fmt.Errorf("p: %w", e)` is
  `"p: " ++ e`.
* A Go function returning `(value, error)` is a function into `Except GoError`.
* What `main.go` imports and does not define is either modelled after the
  library (`strings.Split`, `strings.TrimSpace`, `fmt.Sscanf`,
  `time.ParseDuration`) or taken as a parameter: the regexp compiler is the
  argument `compile` of the filter compiler, and the cluster, the selector
  parsers, the transport and the tailing engine are the fields of `Env`.
-/

namespace SternUI

/-- The text of a Go `error`. -/
abbrev GoError := String

deriving instance DecidableEq for Except

/-! ## Library: `strings` -/

/-- Cut a sequence at every occurrence of the separator `sep`: the pieces
between the separators, in order, `n + 1` of them for `n` separators.  This is
`strings.Split(s, sep)` and `bytes.Split(p, sep)` for a one-element separator,
the only way `main.go` calls them. -/
def splitOn {α : Type} [DecidableEq α] (sep : α) : List α → List (List α)
  | [] => [[]]
  | c :: cs =>
    if c = sep then [] :: splitOn sep cs
    else
      match splitOn sep cs with
      | [] => [[c]]
      | piece :: pieces => (c :: piece) :: pieces

/-- The function `strings.Split(s, sep)` for a separator of one character. -/
def stringsSplit (s : String) (sep : Char) : List String :=
  (splitOn sep s.data).map String.mk

/-- White space as `unicode.IsSpace` defines it: the Latin-1 spaces
`\t \n \v \f \r`, space, U+0085, U+00A0, and the code points of the Unicode
property White_Space above Latin-1. -/
def isSpace (r : Char) : Bool :=
  let n := r.toNat
  (0x09 ≤ n && n ≤ 0x0d) || n == 0x20 || n == 0x85 || n == 0xa0 || n == 0x1680
    || (0x2000 ≤ n && n ≤ 0x200a) || n == 0x2028 || n == 0x2029 || n == 0x202f
    || n == 0x205f || n == 0x3000

/-- The function `strings.TrimSpace`: the string without its leading and
trailing white space. -/
def TrimSpace (s : String) : String :=
  String.mk ((s.data.dropWhile isSpace).reverse.dropWhile isSpace).reverse

/-! ## Library: `regexp` -/

/-- A compiled regular expression (`*regexp.Regexp`), identified by the
expression it was compiled from (`Regexp.String()`). -/
structure Regexp where
  /-- The source text of the expression -/
  expr : String
deriving DecidableEq, Repr

/-- The type of `regexp.Compile`. -/
abbrev Compiler := String → Except GoError Regexp

/-- The text of a `*syntax.Error`: `"error parsing regexp: " + code + ": " +`
the offending expression between backquotes. -/
def syntaxError (code : String) (expr : List Char) : GoError :=
  "error parsing regexp: " ++ code ++ ": `" ++ String.mk expr ++ "`"

/-- What the parser of `regexp/syntax` has on its stack, as far as its syntax
errors depend on it. -/
structure ParseState where
  /-- Left parentheses on the stack that are not closed yet -/
  depth : Nat
  /-- Whether the top of the stack is an operand: the stack is not empty and
  its top is neither a left parenthesis nor a vertical bar -/
  operand : Bool
  /-- The input from the last repetition operator on, when the previous item
  was one: `lastRepeat` of `syntax.parse` -/
  lastRepeat : Option (List Char)

/-- Where the parser is: in the main loop of `syntax.parse`, or inside a
bracket class (`parseClass`), which started at `whole`; `first` says that no
class item has been read yet. -/
inductive Mode where
  | top
  | cls (whole : List Char) (first : Bool)

/-- The error of a pattern outside the modelled fragment. -/
def unsupported : GoError := "regexp syntax outside the modelled fragment"

/-- The syntax check of `syntax.Parse(s, syntax.Perl)`, followed here from
Go's `regexp/syntax/parse.go`, on the fragment of patterns made of literal
characters, `.`, `^`, `$`, `|`, plain groups `( )`, the operators `*`, `+`, `?`
(also lazy: `*?`) and bracket classes of characters and ranges.  A pattern
with a backslash, a brace outside a class, a group opening `(?` or a POSIX
class name `[:` is outside the fragment and is refused as `unsupported`;
Go's limits on the size of an expression are not modelled.  Every step reads
at least one character, and the result is the same for every `fuel` above
the length of the input (`parseFrom_fuel`). -/
def parseFrom (s : List Char) : Nat → Mode → ParseState → List Char → Except GoError Unit
  | 0, _, _, _ => .error unsupported
  | _ + 1, .top, st, [] =>
    if st.depth = 0 then .ok () else .error (syntaxError "missing closing )" s)
  | fuel + 1, .top, st, c :: rest =>
    if c = '(' then
      if rest.head? = some '?' then .error unsupported
      else parseFrom s fuel .top ⟨st.depth + 1, false, none⟩ rest
    else if c = '|' then parseFrom s fuel .top ⟨st.depth, false, none⟩ rest
    else if c = ')' then
      if st.depth = 0 then .error (syntaxError "unexpected )" s)
      else parseFrom s fuel .top ⟨st.depth - 1, true, none⟩ rest
    else if c = '[' then
      parseFrom s fuel (.cls (c :: rest) true) st
        (if rest.head? = some '^' then rest.tail else rest)
    else if c = '*' ∨ c = '+' ∨ c = '?' then
      let after := if rest.head? = some '?' then rest.tail else rest
      match st.lastRepeat with
      | some last =>
        .error (syntaxError "invalid nested repetition operator"
          (last.take (last.length - after.length)))
      | none =>
        if st.operand then parseFrom s fuel .top ⟨st.depth, true, some (c :: rest)⟩ after
        else
          .error (syntaxError "missing argument to repetition operator"
            ((c :: rest).take ((c :: rest).length - after.length)))
    else if c = '\\' ∨ c = '\x7b' then .error unsupported
    else parseFrom s fuel .top ⟨st.depth, true, none⟩ rest
  | _ + 1, .cls whole _, _, [] => .error (syntaxError "missing closing ]" whole)
  | fuel + 1, .cls whole first, st, c :: rest =>
    if c = ']' ∧ first = false then parseFrom s fuel .top ⟨st.depth, true, none⟩ rest
    else if c = '\\' then .error unsupported
    else if c = '[' ∧ rest.head? = some ':' ∧ 2 ≤ rest.length then .error unsupported
    else
      match rest with
      | '-' :: hi :: more =>
        if hi = ']' then parseFrom s fuel (.cls whole false) st rest
        else if hi = '\\' then .error unsupported
        else if hi < c then
          .error (syntaxError "invalid character class range" [c, '-', hi])
        else parseFrom s fuel (.cls whole false) st more
      | _ => parseFrom s fuel (.cls whole false) st rest

/-- The function `regexp.Compile` on the fragment of `parseFrom`: the compiled
expression, or the syntax error of the parser. -/
def regexpCompile : Compiler := fun expr =>
  match parseFrom expr.data (expr.data.length + 1) .top ⟨0, false, none⟩ expr.data with
  | .ok _ => .ok ⟨expr⟩
  | .error err => .error err

/-! ## Library: `fmt.Sscanf` and `time.ParseDuration` -/

/-- The leading white space is skipped as `(*ss).SkipSpace` does for `Sscanf`
(a scan in which a newline is not a space): `none` is its error
`unexpected newline`. -/
def SkipSpace : List Char → Option (List Char)
  | [] => some []
  | r :: rest =>
    if r = '\r' ∧ rest.head? = some '\n' then SkipSpace rest
    else if r = '\n' then none
    else if isSpace r then SkipSpace rest
    else some (r :: rest)

/-- The value of a run of decimal digits, most significant first. -/
def decimalValue (digits : List Char) : Nat :=
  digits.foldl (fun n c => 10 * n + (c.toNat - '0'.toNat)) 0

/-- The integer that `fmt.Sscanf(str, "%d", &x)` stores in a 64-bit `x`, or
`none` when the scan fails and leaves `x` as it was: after the leading
spaces an optional sign and at least one decimal digit are read
(`(*ss).scanInt`), the token must fit 64 bits (`strconv.ParseInt`), and what
follows the digits is not looked at. -/
def scanInt (str : String) : Option Int :=
  match SkipSpace str.data with
  | none => none
  | some input =>
    let negative := input.head? = some '-'
    let unsigned := if input.head? = some '+' ∨ input.head? = some '-' then input.tail else input
    let digits := unsigned.takeWhile Char.isDigit
    if digits = [] then none
    else
      let value : Int := if negative then -(decimalValue digits : Int) else decimalValue digits
      if -(2 : Int) ^ 63 ≤ value ∧ value < (2 : Int) ^ 63 then some value else none

/-- The statement `fmt.Sscanf(str, "%d", &x)` with its results dropped: the new
value of `x`, which held `x` before. -/
def Sscanf (str : String) (x : Int) : Int :=
  (scanInt str).getD x

/-- A `time.Duration`: a number of nanoseconds. -/
abbrev Duration := Int

/-- The constant `time.Hour`. -/
def Hour : Duration := 3600 * 1000000000

/-- The table `unitMap` of package `time`: the nanoseconds of a unit. -/
def unitMap (u : List Char) : Option Nat :=
  if u = "ns".data then some 1
  else if u = "us".data ∨ u = "\u00b5s".data ∨ u = "\u03bcs".data then some 1000
  else if u = "ms".data then some 1000000
  else if u = "s".data then some 1000000000
  else if u = "m".data then some 60000000000
  else if u = "h".data then some 3600000000000
  else none

/-- The function `leadingInt` of package `time`: the value of the leading digits
and the rest, or `none` when the value overflows. -/
def leadingInt : Nat → List Char → Option (Nat × List Char)
  | x, [] => some (x, [])
  | x, c :: rest =>
    if c.isDigit then
      if x > 2 ^ 63 / 10 then none
      else if x * 10 + (c.toNat - '0'.toNat) > 2 ^ 63 then none
      else leadingInt (x * 10 + (c.toNat - '0'.toNat)) rest
    else some (x, c :: rest)

/-- The function `leadingFraction` of package `time`: the digits after the
point as a numerator `x` over `scale`, and the rest; digits past the point of
overflow are read and dropped. -/
def leadingFraction : Nat → Nat → Bool → List Char → Nat × Nat × List Char
  | x, scale, _, [] => (x, scale, [])
  | x, scale, overflow, c :: rest =>
    if c.isDigit then
      if overflow then leadingFraction x scale true rest
      else if x > (2 ^ 63 - 1) / 10 then leadingFraction x scale true rest
      else if x * 10 + (c.toNat - '0'.toNat) > 2 ^ 63 then leadingFraction x scale true rest
      else leadingFraction (x * 10 + (c.toNat - '0'.toNat)) (scale * 10) false rest
    else (x, scale, c :: rest)

/-- The loop of `time.ParseDuration` over the terms `[0-9]*(\.[0-9]*)?[a-z]+`:
the sum `d` of the terms as a `uint64`, or `none` for each of its errors.
The part of a term after the point, which Go computes in `float64` as
`float64(f) * (float64(unit) / scale)`, is the truncated quotient
`f * unit / scale` here.  Every term reads a unit of at least one character,
and the result is the same for every `fuel` above the length of the input
(`durationTerms_fuel`). -/
def durationTerms : Nat → Nat → List Char → Option Nat
  | 0, _, _ => none
  | _ + 1, d, [] => some d
  | fuel + 1, d, c :: rest =>
    if ¬(c = '.' ∨ c.isDigit) then none
    else
      match leadingInt 0 (c :: rest) with
      | none => none
      | some (v, s1) =>
        let pre := s1.length ≠ (c :: rest).length
        let frac := if s1.head? = some '.' then leadingFraction 0 1 false s1.tail else (0, 1, s1)
        let post := s1.head? = some '.' ∧ frac.2.2.length ≠ s1.tail.length
        if ¬pre ∧ ¬post then none
        else
          let u := frac.2.2.takeWhile (fun c => ¬(c = '.' ∨ c.isDigit))
          if u = [] then none
          else
            match unitMap u with
            | none => none
            | some unit =>
              if v > 2 ^ 63 / unit then none
              else
                let v1 := v * unit + frac.1 * unit / frac.2.1
                if frac.1 > 0 ∧ v1 > 2 ^ 63 then none
                else if (d + v1) % 2 ^ 64 > 2 ^ 63 then none
                else durationTerms fuel ((d + v1) % 2 ^ 64) (frac.2.2.drop u.length)

/-- The function `time.ParseDuration`: a signed sequence of decimal numbers,
each with a unit, such as `300ms`, `-1.5h` or `2h45m`.  Its error texts are
not used by `main.go` and are shortened to their first words; the value that
comes with an error is always 0. -/
def ParseDuration (s : String) : Except GoError Duration :=
  let negative := s.data.head? = some '-'
  let body := if s.data.head? = some '-' ∨ s.data.head? = some '+' then s.data.tail else s.data
  if body = ['0'] then .ok 0
  else if body = [] then .error "time: invalid duration"
  else
    match durationTerms (body.length + 1) 0 body with
    | none => .error "time: invalid duration"
    | some d =>
      if negative then .ok (-((d : Int)))
      else if d > 2 ^ 63 - 1 then .error "time: invalid duration"
      else .ok d

/-! ## Session parameters and their parsers -/

/-- The query parameters of a session, as `parseStreamParams` reads them: an
absent parameter is the empty string. -/
structure streamParams where
  namespace_ : String := ""
  selector : String := ""
  query : String := ""
  since : String := ""
  container : String := ""
  excludeContainer : String := ""
  excludePod : String := ""
  containerState : String := ""
  include_ : String := ""
  exclude : String := ""
  highlight : String := ""
  tail : String := ""
  node : String := ""
  allNamespaces : String := ""
  initContainers : String := ""
  ephemeralContainers : String := ""
  timestamps : String := ""
  noFollow : String := ""
  contextName : String := ""
  maxLogRequests : String := ""
deriving DecidableEq, Repr

/-- The function `parseNumericParams`: the tail limit (`none` is the nil
pointer: no limit), the lookback and the cap on concurrent log requests. -/
def parseNumericParams (params : streamParams) : Option Int × Duration × Int :=
  let tailLines : Option Int :=
    if params.tail ≠ "" ∧ params.tail ≠ "-1" then some (Sscanf params.tail 0) else none
  let sinceDuration : Duration :=
    if params.since ≠ "" then
      match ParseDuration params.since with
      | .ok d => d
      | .error _ => 0
    else 48 * Hour
  let maxReq : Int :=
    if params.maxLogRequests ≠ "" then Sscanf params.maxLogRequests 50 else 50
  (tailLines, sinceDuration, maxReq)

/-- A `rest.Config`: the connection settings of a cluster. -/
structure RestConfig where
  /-- The address of the API server -/
  host : String
deriving DecidableEq, Repr

/-- A `clientcmd.ClientConfig`, by the results of the two methods `main.go`
calls on it. -/
structure ClientConfig where
  /-- The result of `ClientConfig()` -/
  restConfig : Except GoError RestConfig
  /-- The first result of `Namespace()`: the namespace of the current context -/
  Namespace : String

/-- The function `buildNamespaceList`: the namespaces the session tails; the
empty name stands for all namespaces. -/
def buildNamespaceList (params : streamParams) (kubeConfig : ClientConfig) : List String :=
  if params.allNamespaces = "true" then [""]
  else if params.namespace_ ≠ "" then [params.namespace_]
  else
    let ns := kubeConfig.Namespace
    [if ns = "" then "default" else ns]

/-- A label or field selector (`labels.Selector`, `fields.Selector`), by its
text. -/
structure Selector where
  /-- The selector as text: `Selector.String()` -/
  expr : String
deriving DecidableEq, Repr

/-- The selector of `labels.Everything()` and of `fields.Everything()`. -/
def Selector.Everything : Selector := ⟨""⟩

/-- The function `parseSelectors`, over the parsers `labels.Parse` and
`fields.ParseSelector`. -/
def parseSelectors (labelsParse fieldsParseSelector : String → Except GoError Selector)
    (params : streamParams) : Except GoError (Selector × Selector) :=
  match (if params.selector ≠ "" then
      match labelsParse params.selector with
      | .error err => Except.error ("invalid selector: " ++ err)
      | .ok sel => Except.ok sel
    else Except.ok Selector.Everything) with
  | .error err => .error err
  | .ok labelSelector =>
    match (if params.node ≠ "" then
        match fieldsParseSelector ("spec.nodeName=" ++ params.node) with
        | .error err => Except.error ("invalid node filter: " ++ err)
        | .ok sel => Except.ok sel
      else Except.ok Selector.Everything) with
    | .error err => .error err
    | .ok fieldSelector => .ok (labelSelector, fieldSelector)

/-- A `stern.ContainerState`: a string type. -/
abbrev ContainerState := String

/-- The constant `stern.RUNNING`. -/
def RUNNING : ContainerState := "running"

/-- The function `parseContainerStates`. -/
def parseContainerStates (containerState : String) : List ContainerState :=
  if containerState ≠ "" ∧ containerState ≠ "all" then [containerState] else [RUNNING]

/-- The loop of `compileRegexList` over the pieces of the filter string:
`regexes` are the patterns compiled so far. -/
def compileRegexLoop (compile : Compiler) :
    List String → List Regexp → Except GoError (List Regexp)
  | [], regexes => .ok regexes
  | filter :: rest, regexes =>
    if TrimSpace filter ≠ "" then
      match compile (TrimSpace filter) with
      | .error err => .error err
      | .ok re => compileRegexLoop compile rest (regexes ++ [re])
    else compileRegexLoop compile rest regexes

/-- The function `compileRegexList`, over the regexp compiler. -/
def compileRegexList (compile : Compiler) (filterStr : String) :
    Except GoError (List Regexp) :=
  if filterStr = "" then .ok []
  else compileRegexLoop compile (stringsSplit filterStr ',') []

/-- The compiled filters of a session, in the order `parseRegexFilters` returns
them. -/
structure RegexFilters where
  queryRegex : Regexp
  containerRegex : Regexp
  includeRegexes : List Regexp
  excludeRegexes : List Regexp
  highlightRegexes : List Regexp
  excludeContainerRegexes : List Regexp
  excludePodRegexes : List Regexp
deriving DecidableEq, Repr

/-- The value of `regexp.MustCompile(".*")`: the pattern is a constant of the
program and is valid. -/
def matchEverything : Regexp := ⟨".*"⟩

/-- The function `parseRegexFilters`, over the regexp compiler. -/
def parseRegexFilters (compile : Compiler) (params : streamParams) :
    Except GoError RegexFilters :=
  match compile params.query with
  | .error err => .error ("invalid query regex: " ++ err)
  | .ok queryRegex =>
    match (if params.container ≠ "" then compile params.container
        else .ok matchEverything) with
    | .error err => .error ("invalid container regex: " ++ err)
    | .ok containerRegex =>
      match compileRegexList compile params.include_ with
      | .error err => .error ("invalid include filter: " ++ err)
      | .ok includeRegexes =>
        match compileRegexList compile params.exclude with
        | .error err => .error ("invalid exclude filter: " ++ err)
        | .ok excludeRegexes =>
          match compileRegexList compile params.highlight with
          | .error err => .error ("invalid highlight filter: " ++ err)
          | .ok highlightRegexes =>
            match compileRegexList compile params.excludeContainer with
            | .error err => .error ("invalid exclude container: " ++ err)
            | .ok excludeContainerRegexes =>
              match compileRegexList compile params.excludePod with
              | .error err => .error ("invalid exclude pod: " ++ err)
              | .ok excludePodRegexes =>
                .ok ⟨queryRegex, containerRegex, includeRegexes, excludeRegexes,
                  highlightRegexes, excludeContainerRegexes, excludePodRegexes⟩

/-! ## The session: transport, engine and `streamLogs` -/

/-- A `kubernetes.Interface`: the client of one cluster. -/
structure Clientset where
  /-- The configuration the client was made from -/
  config : RestConfig
deriving DecidableEq, Repr

/-- The `stern.Config` that `streamLogs` builds, without the fields that are
the same in every session (`TimestampFormat`, `Location`, `Template`, `Out`:
the `WebSocketWriter` of the session, `ErrOut`: `io.Discard`). -/
structure Config where
  Namespaces : List String
  PodQuery : Regexp
  ExcludePodQuery : List Regexp
  Timestamps : Bool
  ContainerQuery : Regexp
  ExcludeContainerQuery : List Regexp
  ContainerStates : List ContainerState
  Exclude : List Regexp
  Include : List Regexp
  Highlight : List Regexp
  Since : Duration
  AllNamespaces : Bool
  LabelSelector : Selector
  FieldSelector : Selector
  TailLines : Option Int
  Follow : Bool
  InitContainers : Bool
  EphemeralContainers : Bool
  MaxLogRequests : Int
deriving DecidableEq, Repr

/-- A run of the tailing engine `stern.Run`, as seen from its output sink: it
returns with its error (`none` is nil), or it hands a chunk `p` to
`Out.Write` and goes on as the result `(n, err)` of that call tells it. -/
inductive Engine where
  | ret (err : Option GoError)
  | write (p : List UInt8) (next : Nat → Option GoError → Engine)

/-- What the main goroutine of `streamLogs` does to the transport and the
engine, in order.  A frame is a call of `conn.WriteMessage` with a text
message: `errorFrame` is one of `streamLogs` itself, `logFrame` one of the
`WebSocketWriter`. -/
inductive Event where
  | upgrade
  | errorFrame (payload : String)
  | logFrame (payload : List UInt8)
  | engineStart (config : Config)
  | close
deriving DecidableEq, Repr

/-- The world around one session: what `streamLogs` calls and does not
define. -/
structure Env where
  /-- The result of `upgrader.Upgrade` -/
  Upgrade : Except GoError Unit
  /-- The deferred-loading client configuration of `clientcmd` for a
  `CurrentContext` override (empty: none) -/
  NewNonInteractiveDeferredLoadingClientConfig : String → ClientConfig
  /-- The function `kubernetes.NewForConfig` -/
  NewForConfig : RestConfig → Except GoError Clientset
  /-- The function `labels.Parse` -/
  labelsParse : String → Except GoError Selector
  /-- The function `fields.ParseSelector` -/
  fieldsParseSelector : String → Except GoError Selector
  /-- The function `regexp.Compile` -/
  compile : Compiler
  /-- The error of the call number `n` (from 0) of `conn.WriteMessage` with a
  text message; `none`: the write succeeds -/
  WriteMessage : Nat → Option GoError
  /-- The engine `stern.Run` for a client and a configuration -/
  Run : Clientset → Config → Engine

/-- The function `createKubeClient`: the client and the client configuration
of a context. -/
def createKubeClient (env : Env) (contextName : String) :
    Except GoError (Clientset × ClientConfig) :=
  let kubeConfig := env.NewNonInteractiveDeferredLoadingClientConfig contextName
  match kubeConfig.restConfig with
  | .error err => .error ("failed to load kubeconfig: " ++ err)
  | .ok restConfig =>
    match env.NewForConfig restConfig with
    | .error err => .error ("failed to create Kubernetes client: " ++ err)
    | .ok clientset => .ok (clientset, kubeConfig)

/-- The loop of `WebSocketWriter.Write` over the lines of a chunk, `n` text
messages having been written on the connection before: the frames written
and the error that ended the loop, if one did. -/
def writeLines (env : Env) : Nat → List (List UInt8) → List Event × Option GoError
  | _, [] => ([], none)
  | n, line :: lines =>
    if line.length = 0 then writeLines env n lines
    else
      match env.WriteMessage n with
      | some err => ([.logFrame line], some err)
      | none => ((.logFrame line) :: (writeLines env (n + 1) lines).1,
          (writeLines env (n + 1) lines).2)

/-- The method `WebSocketWriter.Write`: the frames written and the results
`(n, err)`. -/
def WebSocketWriter.Write (env : Env) (n : Nat) (p : List UInt8) :
    List Event × Nat × Option GoError :=
  match writeLines env n (splitOn 10 p) with
  | (frames, some err) => (frames, 0, some err)
  | (frames, none) => (frames, p.length, none)

/-- The engine run against the `WebSocketWriter`: the frames written and the
error `stern.Run` returns. -/
def runEngine (env : Env) : Nat → Engine → List Event × Option GoError
  | _, .ret err => ([], err)
  | n, .write p next =>
    let w := WebSocketWriter.Write env n p
    let r := runEngine env (n + w.1.length) (next w.2.1 w.2.2)
    (w.1 ++ r.1, r.2)

/-- The text `fmt.Sprintf("\x7b\"error\":\"%s\"\x7d", err)`. -/
def errorMessage (err : GoError) : String :=
  "\x7b\"error\":\"" ++ err ++ "\"\x7d"

/-- The `stern.Config` literal of `streamLogs`, from the parameters and the
values parsed from them. -/
def sessionConfig (params : streamParams) (kubeConfig : ClientConfig)
    (labelSelector fieldSelector : Selector) (filters : RegexFilters) : Config :=
  { Namespaces := buildNamespaceList params kubeConfig
    PodQuery := filters.queryRegex
    ExcludePodQuery := filters.excludePodRegexes
    Timestamps := params.timestamps ≠ ""
    ContainerQuery := filters.containerRegex
    ExcludeContainerQuery := filters.excludeContainerRegexes
    ContainerStates := parseContainerStates params.containerState
    Exclude := filters.excludeRegexes
    Include := filters.includeRegexes
    Highlight := filters.highlightRegexes
    Since := (parseNumericParams params).2.1
    AllNamespaces := params.allNamespaces = "true"
    LabelSelector := labelSelector
    FieldSelector := fieldSelector
    TailLines := (parseNumericParams params).1
    Follow := params.noFollow ≠ "true"
    InitContainers := params.initContainers ≠ "false"
    EphemeralContainers := params.ephemeralContainers ≠ "false"
    MaxLogRequests := (parseNumericParams params).2.2 }

/-- The end of `streamLogs`: the error frame written when `stern.Run` has
returned an error. -/
def engineError : Option GoError → List Event
  | some err => [.errorFrame (errorMessage ("Stern error: " ++ err))]
  | none => []

/-- The main goroutine of `streamLogs`, from the upgrade of the connection to
its deferred `conn.Close()`.  The goroutines it starts next to the engine
(the reader of client messages, the credential refresh, the ping ticker)
write no text message and are left out. -/
def streamLogs (env : Env) (params : streamParams) : List Event :=
  match env.Upgrade with
  | .error _ => []
  | .ok _ =>
    .upgrade ::
    (match createKubeClient env params.contextName with
    | .error err => [.errorFrame (errorMessage err)]
    | .ok (clientset, kubeConfig) =>
      match parseSelectors env.labelsParse env.fieldsParseSelector params with
      | .error err => [.errorFrame (errorMessage err)]
      | .ok (labelSelector, fieldSelector) =>
        match parseRegexFilters env.compile params with
        | .error err => [.errorFrame (errorMessage err)]
        | .ok filters =>
          let config := sessionConfig params kubeConfig labelSelector fieldSelector filters
          let run := runEngine env 0 (env.Run clientset config)
          .engineStart config :: run.1 ++ engineError run.2)
    ++ [.close]

/-! ## Notions of the specification -/

/-- The entries of a comma-separated filter field, in the words of the
specification: the field is split on commas, each piece is trimmed, and the
pieces that are then empty are dropped. -/
def filterEntries (filterStr : String) : List String :=
  ((stringsSplit filterStr ',').map TrimSpace).filter (fun entry => entry ≠ "")

/-- The string `trimmed` is `piece` without its leading and trailing white
space: `piece` is `trimmed` between two runs of white space, and `trimmed`
neither starts nor ends with white space. -/
def IsTrimOf (piece trimmed : String) : Prop :=
  ∃ before after : List Char,
    piece.data = before ++ trimmed.data ++ after ∧
    (∀ c ∈ before, isSpace c = true) ∧ (∀ c ∈ after, isSpace c = true) ∧
    (∀ c rest, trimmed.data = c :: rest → isSpace c = false) ∧
    (∀ front c, trimmed.data = front ++ [c] → isSpace c = false)

/-- The strings `pieces` are the field cut at its commas: there is at least
one, none holds a comma, and joined by commas they are the field. -/
def IsCommaSplit (field : String) (pieces : List String) : Prop :=
  pieces ≠ [] ∧ (∀ piece ∈ pieces, ',' ∉ piece.data) ∧
    List.intercalate [','] (pieces.map String.data) = field.data

/-- The strings `entries` are the entries of a comma-separated field, in the
words of the specification: the field is cut at its commas, every piece is
trimmed, and the pieces that are then empty are dropped. -/
def IsEntryList (field : String) (entries : List String) : Prop :=
  ∃ pieces trimmed, IsCommaSplit field pieces ∧ List.Forall₂ IsTrimOf pieces trimmed ∧
    entries = trimmed.filter (fun entry => entry ≠ "")

/-- The regex-bearing fields of the session parameters. -/
inductive RegexField where
  | query
  | container
  | include_
  | exclude
  | highlight
  | excludeContainer
  | excludePod
deriving DecidableEq, Repr

/-- The patterns a regex-bearing field holds: the query as it is, the
container pattern when it is given, and the entries of a filter list. -/
def fieldEntries (params : streamParams) : RegexField → List String
  | .query => [params.query]
  | .container => if params.container = "" then [] else [params.container]
  | .include_ => filterEntries params.include_
  | .exclude => filterEntries params.exclude
  | .highlight => filterEntries params.highlight
  | .excludeContainer => filterEntries params.excludeContainer
  | .excludePod => filterEntries params.excludePod

/-- How the error of `parseRegexFilters` names a field. -/
def fieldLabel : RegexField → String
  | .query => "invalid query regex"
  | .container => "invalid container regex"
  | .include_ => "invalid include filter"
  | .exclude => "invalid exclude filter"
  | .highlight => "invalid highlight filter"
  | .excludeContainer => "invalid exclude container"
  | .excludePod => "invalid exclude pod"

/-- The field `field` of the parameters is syntactically invalid: the compiler
rejects one of its patterns, `entry`, with the error `err`. -/
def InvalidEntry (compile : Compiler) (params : streamParams) (field : RegexField)
    (entry : String) (err : GoError) : Prop :=
  entry ∈ fieldEntries params field ∧ compile entry = .error err

/-- At least one regex-bearing field of the parameters is syntactically
invalid. -/
def InvalidRegexField (compile : Compiler) (params : streamParams) : Prop :=
  ∃ field entry err, InvalidEntry compile params field entry err

/-- An `InvalidFilterSyntax` rejection of the parameters: the error frame whose
text names a field that is invalid, with the error of the compiler. -/
def InvalidFilterSyntax (compile : Compiler) (params : streamParams) (frame : Event) : Prop :=
  ∃ field entry err, InvalidEntry compile params field entry err ∧
    frame = .errorFrame (errorMessage (fieldLabel field ++ ": " ++ err))

/-- The event is an error frame. -/
def Event.isErrorFrame : Event → Bool
  | .errorFrame _ => true
  | _ => false

/-! ### JSON texts (RFC 8259) -/

/-- The UTF-16 code units of a character. -/
def utf16 (c : Char) : List Nat :=
  if c.toNat < 0x10000 then [c.toNat]
  else [0xd800 + (c.toNat - 0x10000) / 0x400, 0xdc00 + (c.toNat - 0x10000) % 0x400]

/-- The value of a hexadecimal digit. -/
def hexValue (c : Char) : Option Nat :=
  if c.isDigit then some (c.toNat - '0'.toNat)
  else if 'a' ≤ c ∧ c ≤ 'f' then some (c.toNat - 'a'.toNat + 10)
  else if 'A' ≤ c ∧ c ≤ 'F' then some (c.toNat - 'A'.toNat + 10)
  else none

/-- The character a two-character escape of a JSON string stands for. -/
def jsonEscape (c : Char) : Option Nat :=
  if c = '"' ∨ c = '\\' ∨ c = '/' then some c.toNat
  else if c = 'b' then some 0x08
  else if c = 'f' then some 0x0c
  else if c = 'n' then some 0x0a
  else if c = 'r' then some 0x0d
  else if c = 't' then some 0x09
  else none

/-- A JSON string read from just after its opening quote: the UTF-16 code
units it denotes and the text after its closing quote; `none` when the text
is not a JSON string (it is not closed, or has a control character or a
wrong escape). -/
def jsonString : List Char → Option (List Nat × List Char)
  | [] => none
  | '\\' :: 'u' :: h1 :: h2 :: h3 :: h4 :: rest =>
    match hexValue h1, hexValue h2, hexValue h3, hexValue h4, jsonString rest with
    | some a, some b, some c, some d, some (units, after) =>
      some ((((a * 16 + b) * 16 + c) * 16 + d) :: units, after)
    | _, _, _, _, _ => none
  | '\\' :: e :: rest =>
    match jsonEscape e, jsonString rest with
    | some unit, some (units, after) => some (unit :: units, after)
    | _, _ => none
  | c :: rest =>
    if c = '"' then some ([], rest)
    else if c = '\\' ∨ c.toNat < 0x20 then none
    else
      match jsonString rest with
      | some (units, after) => some (utf16 c ++ units, after)
      | none => none

/-- White space of a JSON text. -/
def jsonSpace (c : Char) : Bool :=
  c = ' ' ∨ c = '\t' ∨ c = '\n' ∨ c = '\r'

/-- The value of the member `error` when the text is a JSON object whose
only member is `error`, with a string for its value; `none` when the text is
not such an object. -/
def decodeErrorObject (text : String) : Option (List Nat) :=
  match text.data.dropWhile jsonSpace with
  | '\x7b' :: t1 =>
    match t1.dropWhile jsonSpace with
    | '"' :: t2 =>
      match jsonString t2 with
      | some (key, t3) =>
        match t3.dropWhile jsonSpace with
        | ':' :: t4 =>
          match t4.dropWhile jsonSpace with
          | '"' :: t5 =>
            match jsonString t5 with
            | some (value, t6) =>
              match t6.dropWhile jsonSpace with
              | '\x7d' :: t7 =>
                if key = "error".data.flatMap utf16 ∧ t7.all jsonSpace then some value else none
              | _ => none
            | none => none
          | _ => none
        | _ => none
      | none => none
    | _ => none
  | _ => none

/-- The frame is a well-formed JSON object `\x7b"error": string\x7d` that carries
the error text `err`. -/
def WellFormedErrorFrame (frame : String) (err : GoError) : Prop :=
  decodeErrorObject frame = some (err.data.flatMap utf16)

instance (frame : String) (err : GoError) : Decidable (WellFormedErrorFrame frame err) :=
  inferInstanceAs (Decidable (_ = _))

/-! ## A concrete environment -/

/-- A workstation for the sessions evaluated below: the upgrade succeeds, the
kubeconfig has its current context only (no namespace set in it), the
regexp compiler is `regexpCompile`, every write succeeds, and the engine
hands over one chunk of two lines and returns without an error.  The
selector parsers accept their input as it is; no session below gives a
selector. -/
def workstation : Env where
  Upgrade := .ok ()
  NewNonInteractiveDeferredLoadingClientConfig := fun context =>
    if context = "" then ⟨.ok ⟨"https://127.0.0.1:6443"⟩, ""⟩
    else ⟨.error ("context \"" ++ context ++ "\" does not exist"), ""⟩
  NewForConfig := fun config => .ok ⟨config⟩
  labelsParse := fun selector => .ok ⟨selector⟩
  fieldsParseSelector := fun selector => .ok ⟨selector⟩
  compile := regexpCompile
  WriteMessage := fun _ => none
  Run := fun _ _ => .write [0x61, 0x0a, 0x62, 0x0a] (fun _ _ => .ret none)

/-! ## Theorems: the library models -/

/-- The syntax check does not depend on its fuel, once the fuel is above the
length of the input. -/
theorem parseFrom_fuel (s : List Char) :
    ∀ (fuel fuel' : Nat) (mode : Mode) (st : ParseState) (input : List Char),
      input.length < fuel → input.length < fuel' →
        parseFrom s fuel mode st input = parseFrom s fuel' mode st input := by
  intro fuel
  induction fuel with
  | zero => intro fuel' mode st input h; omega
  | succ fuel ih =>
    intro fuel' mode st input h h'
    cases fuel' with
    | zero => omega
    | succ fuel' =>
      cases input with
      | nil => cases mode <;> simp [parseFrom]
      | cons c rest =>
        have hr : rest.length < fuel := by simpa using h
        have hr' : rest.length < fuel' := by simpa using h'
        have ht : rest.tail.length < fuel := by simp; omega
        have ht' : rest.tail.length < fuel' := by simp; omega
        cases mode with
        | top =>
          simp only [parseFrom]
          repeat' split
          all_goals first
            | rfl
            | exact ih fuel' _ _ _ hr hr'
            | exact ih fuel' _ _ _ ht ht'
        | cls whole first =>
          simp only [parseFrom]
          repeat' split
          all_goals first
            | rfl
            | exact ih fuel' _ _ _ hr hr'
            | exact ih fuel' _ _ _ ht ht'
            | (apply ih fuel' <;> (simp only [List.length_cons] at hr hr'; omega))

/-- What `leadingInt` leaves is not longer than its input. -/
theorem leadingInt_length (input : List Char) :
    ∀ (x v : Nat) (rest : List Char), leadingInt x input = some (v, rest) →
      rest.length ≤ input.length := by
  induction input with
  | nil => intro x v rest h; simp [leadingInt] at h; simp [h.2.symm]
  | cons c cs ih =>
    intro x v rest h
    unfold leadingInt at h
    split_ifs at h with h1 h2 h3
    · have := ih _ _ _ h
      simp only [List.length_cons]
      omega
    · simp only [Option.some.injEq, Prod.mk.injEq] at h
      rw [← h.2]

/-- What `leadingFraction` leaves is not longer than its input. -/
theorem leadingFraction_length (input : List Char) :
    ∀ (x scale : Nat) (overflow : Bool),
      (leadingFraction x scale overflow input).2.2.length ≤ input.length := by
  induction input with
  | nil => intro x scale overflow; simp [leadingFraction]
  | cons c cs ih =>
    intro x scale overflow
    unfold leadingFraction
    split_ifs
    all_goals first
      | exact Nat.le_succ_of_le (ih _ _ _)
      | simp

/-- The loop of `time.ParseDuration` does not depend on its fuel, once the fuel
is above the length of the input. -/
theorem durationTerms_fuel :
    ∀ (fuel fuel' d : Nat) (input : List Char),
      input.length < fuel → input.length < fuel' →
        durationTerms fuel d input = durationTerms fuel' d input := by
  intro fuel
  induction fuel with
  | zero => intro fuel' d input h; omega
  | succ fuel ih =>
    intro fuel' d input h h'
    cases fuel' with
    | zero => omega
    | succ fuel' =>
      cases input with
      | nil => simp [durationTerms]
      | cons c rest =>
        simp only [List.length_cons, Nat.add_lt_add_iff_right] at h h'
        simp only [durationTerms]
        have hdrop : ∀ (v : Nat) (s1 input : List Char) (p : Char → Bool),
            leadingInt 0 (c :: rest) = some (v, s1) → input.length ≤ s1.length →
            ¬ List.takeWhile p input = [] →
            (List.drop (List.takeWhile p input).length input).length < fuel ∧
              (List.drop (List.takeWhile p input).length input).length < fuel' := by
          intro v s1 input p hlead hle hne
          have hs1 := leadingInt_length _ _ _ _ hlead
          have hpos := List.length_pos.mpr hne
          simp only [List.length_cons] at hs1
          simp only [List.length_drop]
          omega
        repeat' split
        all_goals first
          | rfl
          | (apply ih
             · exact (hdrop _ _ _ _ (by assumption)
                 ((leadingFraction_length _ _ _ _).trans (by simp)) (by assumption)).1
             · exact (hdrop _ _ _ _ (by assumption)
                 ((leadingFraction_length _ _ _ _).trans (by simp)) (by assumption)).2)
          | (apply ih
             · exact (hdrop _ _ _ _ (by assumption) (Nat.le_refl _) (by assumption)).1
             · exact (hdrop _ _ _ _ (by assumption) (Nat.le_refl _) (by assumption)).2)

/-- A split has at least one piece. -/
theorem splitOn_ne_nil {α : Type} [DecidableEq α] (sep : α) (l : List α) :
    splitOn sep l ≠ [] := by
  cases l with
  | nil => simp [splitOn]
  | cons c cs =>
    unfold splitOn
    split_ifs
    · simp
    · split <;> simp

/-- The pieces of a split, joined by the separator, are the sequence that was
split. -/
theorem splitOn_intercalate {α : Type} [DecidableEq α] (sep : α) (l : List α) :
    List.intercalate [sep] (splitOn sep l) = l := by
  induction l with
  | nil => simp [splitOn, List.intercalate]
  | cons c cs ih =>
    unfold splitOn
    have hne := splitOn_ne_nil sep cs
    cases hs : splitOn sep cs with
    | nil => exact absurd hs hne
    | cons piece pieces =>
      rw [hs] at ih
      split_ifs with hc
      · subst hc
        simp only [List.intercalate, List.intersperse_cons_cons, List.flatten_cons,
          List.nil_append, List.singleton_append, List.cons.injEq, true_and]
        simpa [List.intercalate] using ih
      · cases pieces with
        | nil =>
          simp only [List.intercalate, List.intersperse_single, List.flatten_cons,
            List.flatten_nil, List.append_nil] at ih ⊢
          rw [ih]
        | cons piece' pieces' =>
          simp only [List.intercalate, List.intersperse_cons_cons, List.flatten_cons,
            List.cons_append] at ih ⊢
          rw [ih]

/-- No piece of a split holds the separator. -/
theorem splitOn_not_mem {α : Type} [DecidableEq α] (sep : α) (l : List α) :
    ∀ piece ∈ splitOn sep l, sep ∉ piece := by
  induction l with
  | nil => simp [splitOn]
  | cons c cs ih =>
    unfold splitOn
    have hne := splitOn_ne_nil sep cs
    cases hs : splitOn sep cs with
    | nil => exact absurd hs hne
    | cons piece pieces =>
      rw [hs] at ih
      split_ifs with hc
      · intro q hq
        simp only [List.mem_cons] at hq
        rcases hq with rfl | hq
        · simp
        · exact ih q (by simpa using hq)
      · intro q hq
        simp only [List.mem_cons] at hq
        rcases hq with rfl | hq
        · intro hmem
          simp only [List.mem_cons] at hmem
          rcases hmem with h | h
          · exact hc h.symm
          · exact ih piece (List.mem_cons_self _ _) h
        · exact ih q (List.mem_cons_of_mem _ hq)

/-- The equation of `splitOn` for a sequence that is not empty. -/
theorem splitOn_cons {α : Type} [DecidableEq α] (sep c : α) (cs : List α) :
    splitOn sep (c :: cs) =
      if c = sep then [] :: splitOn sep cs
      else
        match splitOn sep cs with
        | [] => [[c]]
        | piece :: pieces => (c :: piece) :: pieces := by
  rw [splitOn]

/-- A sequence without the separator is its own single piece. -/
theorem splitOn_of_not_mem {α : Type} [DecidableEq α] (sep : α) (l : List α)
    (h : sep ∉ l) : splitOn sep l = [l] := by
  induction l with
  | nil => rfl
  | cons c cs ih =>
    simp only [List.mem_cons, not_or] at h
    unfold splitOn
    rw [if_neg (fun hc => h.1 hc.symm), ih h.2]

/-- A piece without the separator, followed by a separator, is the first piece
of the split. -/
theorem splitOn_append_sep {α : Type} [DecidableEq α] (sep : α) (piece l : List α)
    (h : sep ∉ piece) : splitOn sep (piece ++ sep :: l) = piece :: splitOn sep l := by
  induction piece with
  | nil => simp [splitOn_cons]
  | cons c cs ih =>
    simp only [List.mem_cons, not_or] at h
    rw [List.cons_append, splitOn_cons, if_neg (fun hc => h.1 hc.symm), ih h.2]

/-- Pieces without the separator, at least one, are the split of their join:
the split is the only such list of pieces. -/
theorem splitOn_unique {α : Type} [DecidableEq α] (sep : α) (pieces : List (List α))
    (hne : pieces ≠ []) (hsep : ∀ piece ∈ pieces, sep ∉ piece) :
    splitOn sep (List.intercalate [sep] pieces) = pieces := by
  induction pieces with
  | nil => exact absurd rfl hne
  | cons piece rest ih =>
    cases rest with
    | nil =>
      simp only [List.intercalate, List.intersperse_single, List.flatten_cons,
        List.flatten_nil, List.append_nil]
      exact splitOn_of_not_mem sep piece (hsep piece (List.mem_cons_self _ _))
    | cons next rest =>
      have ih' := ih (by simp) (fun q hq => hsep q (List.mem_cons_of_mem _ hq))
      simp only [List.intercalate, List.intersperse_cons_cons, List.flatten_cons,
        List.singleton_append] at ih' ⊢
      rw [splitOn_append_sep sep piece _ (hsep piece (List.mem_cons_self _ _)), ih']

/-- The elements of a piece of a split are elements of the sequence. -/
theorem splitOn_subset {α : Type} [DecidableEq α] (sep : α) (l : List α) :
    ∀ piece ∈ splitOn sep l, ∀ c ∈ piece, c ∈ l := by
  induction l with
  | nil => simp [splitOn]
  | cons c cs ih =>
    unfold splitOn
    cases hs : splitOn sep cs with
    | nil => exact absurd hs (splitOn_ne_nil sep cs)
    | cons piece pieces =>
      rw [hs] at ih
      split_ifs with hc
      · intro q hq x hx
        simp only [List.mem_cons] at hq
        rcases hq with rfl | hq
        · cases hx
        · exact List.mem_cons_of_mem _ (ih q (by simpa using hq) x hx)
      · intro q hq x hx
        simp only [List.mem_cons] at hq
        rcases hq with rfl | hq
        · simp only [List.mem_cons] at hx
          rcases hx with rfl | hx
          · exact List.mem_cons_self _ _
          · exact List.mem_cons_of_mem _ (ih piece (List.mem_cons_self _ _) x hx)
        · exact List.mem_cons_of_mem _ (ih q (List.mem_cons_of_mem _ hq) x hx)

/-- The function `stringsSplit` cuts a field at its commas. -/
theorem stringsSplit_isCommaSplit (field : String) :
    IsCommaSplit field (stringsSplit field ',') := by
  refine ⟨?_, ?_, ?_⟩
  · simp [stringsSplit, splitOn_ne_nil]
  · intro piece hpiece
    simp only [stringsSplit, List.mem_map] at hpiece
    obtain ⟨l, hl, rfl⟩ := hpiece
    exact splitOn_not_mem ',' field.data l hl
  · have h : (stringsSplit field ',').map String.data = splitOn ',' field.data := by
      simp [stringsSplit, Function.comp_def]
    rw [h, splitOn_intercalate]

/-- What cuts a field at its commas is what `stringsSplit` returns. -/
theorem isCommaSplit_unique (field : String) (pieces : List String)
    (h : IsCommaSplit field pieces) : pieces = stringsSplit field ',' := by
  obtain ⟨hne, hsep, hjoin⟩ := h
  have hu := splitOn_unique ',' (pieces.map String.data) (by simpa using hne)
    (by
      intro q hq
      simp only [List.mem_map] at hq
      obtain ⟨piece, hpiece, rfl⟩ := hq
      exact hsep piece hpiece)
  rw [hjoin] at hu
  simp only [stringsSplit, hu, List.map_map]
  have : (String.mk ∘ String.data) = id := by
    funext s
    rfl
  rw [this, List.map_id]

/-- What `dropWhile` leaves does not start with an element it drops. -/
theorem dropWhile_head_not {α : Type} (p : α → Bool) (l : List α) (c : α) (rest : List α)
    (h : l.dropWhile p = c :: rest) : p c = false := by
  induction l with
  | nil => cases h
  | cons x xs ih =>
    rw [List.dropWhile_cons] at h
    split_ifs at h with hx
    · exact ih h
    · cases h
      simpa using hx

/-- A prefix of elements that are all dropped is dropped whole. -/
theorem dropWhile_append_of_all {α : Type} (p : α → Bool) (before l : List α)
    (h : ∀ c ∈ before, p c = true) : (before ++ l).dropWhile p = l.dropWhile p := by
  induction before with
  | nil => rfl
  | cons x xs ih =>
    rw [List.cons_append, List.dropWhile_cons, if_pos (h x (List.mem_cons_self _ _))]
    exact ih (fun c hc => h c (List.mem_cons_of_mem _ hc))

/-- The characters of `TrimSpace`, with the functions of the library. -/
theorem TrimSpace_data (s : String) :
    (TrimSpace s).data = List.rdropWhile isSpace (s.data.dropWhile isSpace) := rfl

/-- The function `TrimSpace` trims. -/
theorem isTrimOf_TrimSpace (piece : String) : IsTrimOf piece (TrimSpace piece) := by
  refine ⟨piece.data.takeWhile isSpace,
    List.rtakeWhile isSpace (piece.data.dropWhile isSpace), ?_, ?_, ?_, ?_, ?_⟩
  · rw [TrimSpace_data, List.append_assoc]
    have h : List.rdropWhile isSpace (piece.data.dropWhile isSpace) ++
        List.rtakeWhile isSpace (piece.data.dropWhile isSpace) =
        piece.data.dropWhile isSpace := by
      have := List.takeWhile_append_dropWhile isSpace (piece.data.dropWhile isSpace).reverse
      have h2 := congrArg List.reverse this
      rw [List.reverse_append, List.reverse_reverse] at h2
      exact h2
    rw [h, List.takeWhile_append_dropWhile]
  · intro c hc
    exact List.mem_takeWhile_imp hc
  · intro c hc
    exact List.mem_rtakeWhile_imp hc
  · intro c rest h
    rw [TrimSpace_data] at h
    obtain ⟨tail, htail⟩ := List.rdropWhile_prefix isSpace (piece.data.dropWhile isSpace)
    rw [h] at htail
    exact dropWhile_head_not isSpace piece.data c (rest ++ tail) htail.symm
  · intro front c h
    rw [TrimSpace_data, List.rdropWhile] at h
    have h2 := congrArg List.reverse h
    rw [List.reverse_reverse, List.reverse_append, List.reverse_singleton,
      List.singleton_append] at h2
    exact dropWhile_head_not isSpace _ c _ h2

/-- What trims a piece is what `TrimSpace` returns. -/
theorem isTrimOf_unique (piece trimmed : String) (h : IsTrimOf piece trimmed) :
    trimmed = TrimSpace piece := by
  obtain ⟨before, after, hpiece, hbefore, hafter, hfirst, hlast⟩ := h
  have hdata : (TrimSpace piece).data = trimmed.data := by
    rw [TrimSpace_data, hpiece, List.append_assoc, dropWhile_append_of_all isSpace _ _ hbefore]
    cases ht : trimmed.data with
    | nil =>
      rw [List.nil_append, List.dropWhile_eq_nil_iff.mpr hafter]
      rfl
    | cons c rest =>
      have hc := hfirst c rest ht
      rw [List.cons_append, List.dropWhile_cons, if_neg (by simp [hc]), ← List.cons_append,
        List.rdropWhile, List.reverse_append,
        dropWhile_append_of_all isSpace _ _ (fun x hx => hafter x (List.mem_reverse.mp hx))]
      obtain ⟨front, last, hfl⟩ : ∃ front last, c :: rest = front ++ [last] :=
        ⟨(c :: rest).dropLast, (c :: rest).getLast (by simp),
          (List.dropLast_append_getLast (by simp)).symm⟩
      have hl := hlast front last (ht.trans hfl)
      rw [hfl, List.reverse_append, List.reverse_singleton, List.singleton_append,
        List.dropWhile_cons, if_neg (by simp [hl])]
      simp
  cases trimmed with
  | mk data =>
    cases hts : TrimSpace piece with
    | mk data' =>
      rw [hts] at hdata
      simp only at hdata
      rw [hdata]

/-! ## Theorems: the filter compiler -/

/-- The entries of a list of pieces: trimmed, the empty ones dropped. -/
theorem entries_cons (piece : String) (pieces : List String) :
    ((piece :: pieces).map TrimSpace).filter (fun entry => entry ≠ "") =
      if TrimSpace piece ≠ "" then
        TrimSpace piece :: (pieces.map TrimSpace).filter (fun entry => entry ≠ "")
      else (pieces.map TrimSpace).filter (fun entry => entry ≠ "") := by
  by_cases h : TrimSpace piece = "" <;> simp [List.filter_cons, h]

/-- The loop of `compileRegexList` succeeds exactly with the compiled entries
of its pieces, appended in order to the patterns it starts from. -/
theorem compileRegexLoop_ok (compile : Compiler) (pieces : List String) :
    ∀ (regexes rs : List Regexp),
      compileRegexLoop compile pieces regexes = .ok rs ↔
        ∃ more, rs = regexes ++ more ∧
          List.Forall₂ (fun entry re => compile entry = .ok re)
            ((pieces.map TrimSpace).filter (fun entry => entry ≠ "")) more := by
  induction pieces with
  | nil =>
    intro regexes rs
    simp [compileRegexLoop, eq_comm]
  | cons piece pieces ih =>
    intro regexes rs
    rw [entries_cons]
    by_cases h : TrimSpace piece = ""
    · simp only [compileRegexLoop, h, ne_eq, not_true_eq_false, if_false, ih]
    · simp only [compileRegexLoop, h, ne_eq, not_false_eq_true, if_true]
      cases hc : compile (TrimSpace piece) with
      | error err =>
        constructor
        · intro h0
          cases h0
        · rintro ⟨more, _, hall⟩
          cases hall with
          | cons h1 _ => rw [hc] at h1; cases h1
      | ok re =>
        simp only [ih]
        constructor
        · rintro ⟨more, rfl, hall⟩
          exact ⟨re :: more, by simp, List.Forall₂.cons hc hall⟩
        · rintro ⟨more, rfl, hall⟩
          cases hall with
          | cons h1 h2 =>
            rw [hc] at h1
            cases h1
            exact ⟨_, by simp, h2⟩

/-- An error of the loop of `compileRegexList` is the error of the compiler on
one of the entries of its pieces. -/
theorem compileRegexLoop_error (compile : Compiler) (pieces : List String) :
    ∀ (regexes : List Regexp) (err : GoError),
      compileRegexLoop compile pieces regexes = .error err →
        ∃ entry ∈ (pieces.map TrimSpace).filter (fun entry => entry ≠ ""),
          compile entry = .error err := by
  induction pieces with
  | nil => intro regexes err h; simp [compileRegexLoop] at h
  | cons piece pieces ih =>
    intro regexes err hloop
    rw [entries_cons]
    by_cases h : TrimSpace piece = ""
    · simp only [compileRegexLoop, h, ne_eq, not_true_eq_false, if_false] at hloop ⊢
      exact ih _ _ hloop
    · simp only [compileRegexLoop, h, ne_eq, not_false_eq_true, if_true] at hloop ⊢
      cases hc : compile (TrimSpace piece) with
      | error e =>
        rw [hc] at hloop
        cases hloop
        exact ⟨_, List.mem_cons_self _ _, hc⟩
      | ok re =>
        rw [hc] at hloop
        obtain ⟨entry, hmem, hent⟩ := ih _ _ hloop
        exact ⟨entry, List.mem_cons_of_mem _ hmem, hent⟩

/-- A list of entries that all compile has a list of compiled patterns. -/
theorem forall₂_compile_of_forall (compile : Compiler) (entries : List String)
    (h : ∀ entry ∈ entries, ∃ re, compile entry = .ok re) :
    ∃ regexes, List.Forall₂ (fun entry re => compile entry = .ok re) entries regexes := by
  induction entries with
  | nil => exact ⟨[], List.Forall₂.nil⟩
  | cons entry entries ih =>
    obtain ⟨re, hre⟩ := h entry (List.mem_cons_self _ _)
    obtain ⟨regexes, hall⟩ := ih (fun e he => h e (List.mem_cons_of_mem _ he))
    exact ⟨re :: regexes, List.Forall₂.cons hre hall⟩

/-- The empty filter string has no entries. -/
theorem filterEntries_empty : filterEntries "" = [] := by decide

/-- The function `compileRegexList` succeeds exactly with the compiled entries
of the field, in order. -/
theorem compileRegexList_ok (compile : Compiler) (filterStr : String) (regexes : List Regexp) :
    compileRegexList compile filterStr = .ok regexes ↔
      List.Forall₂ (fun entry re => compile entry = .ok re) (filterEntries filterStr) regexes := by
  unfold compileRegexList
  by_cases h : filterStr = ""
  · subst h
    rw [filterEntries_empty]
    simp [eq_comm]
  · rw [if_neg h, compileRegexLoop_ok]
    simp [filterEntries]

/-- An error of `compileRegexList` is the error of the compiler on an entry of
the field. -/
theorem compileRegexList_error (compile : Compiler) (filterStr : String) (err : GoError)
    (h : compileRegexList compile filterStr = .error err) :
    ∃ entry ∈ filterEntries filterStr, compile entry = .error err := by
  unfold compileRegexList at h
  by_cases h0 : filterStr = ""
  · rw [if_pos h0] at h
    cases h
  · rw [if_neg h0] at h
    exact compileRegexLoop_error compile _ _ _ h

/-- A field with an entry that the compiler rejects makes `compileRegexList`
fail. -/
theorem compileRegexList_error_of_invalid (compile : Compiler) (filterStr : String)
    (entry : String) (err : GoError) (hmem : entry ∈ filterEntries filterStr)
    (hent : compile entry = .error err) :
    ∃ err', compileRegexList compile filterStr = .error err' := by
  cases h : compileRegexList compile filterStr with
  | error err' => exact ⟨err', rfl⟩
  | ok regexes =>
    exfalso
    rw [compileRegexList_ok] at h
    generalize filterEntries filterStr = entries at hmem h
    induction h with
    | nil => cases hmem
    | cons h1 _ ih =>
      cases hmem with
      | head => rw [hent] at h1; cases h1
      | tail _ hm => exact ih hm

/-- Pieces are trimmed one by one only by `TrimSpace`. -/
theorem forall₂_isTrimOf (pieces trimmed : List String)
    (h : List.Forall₂ IsTrimOf pieces trimmed) : trimmed = pieces.map TrimSpace := by
  induction h with
  | nil => rfl
  | cons h _ ih => rw [List.map_cons, ← ih, isTrimOf_unique _ _ h]

/-- The entries of a field, in the words of the specification, are the list
`filterEntries` computes, and no other. -/
theorem isEntryList_iff (field : String) (entries : List String) :
    IsEntryList field entries ↔ entries = filterEntries field := by
  constructor
  · rintro ⟨pieces, trimmed, hsplit, htrim, rfl⟩
    rw [forall₂_isTrimOf pieces trimmed htrim, isCommaSplit_unique field pieces hsplit]
    rfl
  · rintro rfl
    refine ⟨stringsSplit field ',', (stringsSplit field ',').map TrimSpace,
      stringsSplit_isCommaSplit field, ?_, rfl⟩
    generalize stringsSplit field ',' = pieces
    induction pieces with
    | nil => exact List.Forall₂.nil
    | cons piece pieces ih => exact List.Forall₂.cons (isTrimOf_TrimSpace piece) ih

/-- A field of white space and commas only has no entries. -/
theorem filterEntries_blank (field : String)
    (h : ∀ c ∈ field.data, isSpace c = true ∨ c = ',') : filterEntries field = [] := by
  unfold filterEntries
  rw [List.filter_eq_nil_iff]
  intro entry hentry
  simp only [List.mem_map, stringsSplit] at hentry
  obtain ⟨piece, ⟨l, hl, rfl⟩, rfl⟩ := hentry
  have hspace : ∀ c ∈ l, isSpace c = true := by
    intro c hc
    rcases h c (splitOn_subset ',' field.data l hl c hc) with hs | hcomma
    · exact hs
    · subst hcomma
      exact absurd hc (splitOn_not_mem ',' field.data l hl)
  have hempty : TrimSpace (String.mk l) = "" := by
    unfold TrimSpace
    rw [show (String.mk l).data = l from rfl, List.dropWhile_eq_nil_iff.mpr hspace]
    rfl
  simp [hempty]

/-- C8: the entries of a filter string are its pieces between the commas,
each trimmed of its white space, without the pieces that are then empty, and
`filterEntries` is the one list of them; the function `compileRegexList`
returns patterns exactly when they are the compiled entries, one for each
entry and in the order of the entries; it succeeds if and only if every
entry compiles; an error it returns is the error of an entry that does not
compile, and comes without patterns; a field without entries, such as an
empty field or one of white space and commas only, yields the empty
sequence. -/
theorem compileRegexList_entries (compile : Compiler) (filterStr : String) :
    (∀ entries, IsEntryList filterStr entries ↔ entries = filterEntries filterStr) ∧
    (∀ regexes, compileRegexList compile filterStr = .ok regexes ↔
      List.Forall₂ (fun entry re => compile entry = .ok re) (filterEntries filterStr) regexes) ∧
    ((∃ regexes, compileRegexList compile filterStr = .ok regexes) ↔
      ∀ entry ∈ filterEntries filterStr, ∃ re, compile entry = .ok re) ∧
    ((∃ err, compileRegexList compile filterStr = .error err) ↔
      ∃ entry ∈ filterEntries filterStr, ∃ err, compile entry = .error err) ∧
    (∀ err, compileRegexList compile filterStr = .error err →
      ∃ entry ∈ filterEntries filterStr, compile entry = .error err) ∧
    (filterEntries filterStr = [] → compileRegexList compile filterStr = .ok []) ∧
    ((∀ c ∈ filterStr.data, isSpace c = true ∨ c = ',') →
      compileRegexList compile filterStr = .ok []) := by
  refine ⟨isEntryList_iff filterStr, compileRegexList_ok compile filterStr, ⟨?_, ?_⟩,
    ⟨?_, ?_⟩, ?_, ?_, ?_⟩
  · rintro ⟨regexes, h⟩ entry hmem
    rw [compileRegexList_ok] at h
    generalize filterEntries filterStr = entries at hmem h
    induction h with
    | nil => cases hmem
    | cons h1 _ ih =>
      cases hmem with
      | head => exact ⟨_, h1⟩
      | tail _ hm => exact ih hm
  · intro h
    obtain ⟨regexes, hall⟩ := forall₂_compile_of_forall compile _ h
    exact ⟨regexes, (compileRegexList_ok compile filterStr regexes).mpr hall⟩
  · rintro ⟨err, h⟩
    obtain ⟨entry, hmem, hent⟩ := compileRegexList_error compile filterStr err h
    exact ⟨entry, hmem, err, hent⟩
  · rintro ⟨entry, hmem, err, hent⟩
    exact compileRegexList_error_of_invalid compile filterStr entry err hmem hent
  · exact compileRegexList_error compile filterStr
  · intro h
    rw [compileRegexList_ok, h]
    exact List.Forall₂.nil
  · intro h
    rw [compileRegexList_ok, filterEntries_blank filterStr h]
    exact List.Forall₂.nil

/-- C8, at concrete fields: blanks, a tab, a newline and a no-break space are
trimmed and the empty pieces dropped; an entry that does not compile fails
the field; white space and commas alone give the empty sequence. -/
theorem compileRegexList_entries_witness :
    compileRegexList regexpCompile " a ,\t\n, b\u00a0,,c" = .ok [⟨"a"⟩, ⟨"b"⟩, ⟨"c"⟩] ∧
    compileRegexList regexpCompile "a, [b ,c" =
      .error "error parsing regexp: missing closing ]: `[b`" ∧
    compileRegexList regexpCompile " ,\t, " = .ok [] :=
  ⟨by decide, by decide,
    (compileRegexList_entries regexpCompile " ,\t, ").2.2.2.2.2.2 (by decide)⟩

/-- What a success of `parseRegexFilters` says of each field. -/
theorem parseRegexFilters_ok (compile : Compiler) (params : streamParams)
    (filters : RegexFilters) (h : parseRegexFilters compile params = .ok filters) :
    compile params.query = .ok filters.queryRegex ∧
    (if params.container ≠ "" then compile params.container
      else .ok matchEverything) = .ok filters.containerRegex ∧
    compileRegexList compile params.include_ = .ok filters.includeRegexes ∧
    compileRegexList compile params.exclude = .ok filters.excludeRegexes ∧
    compileRegexList compile params.highlight = .ok filters.highlightRegexes ∧
    compileRegexList compile params.excludeContainer = .ok filters.excludeContainerRegexes ∧
    compileRegexList compile params.excludePod = .ok filters.excludePodRegexes := by
  unfold parseRegexFilters at h
  cases h1 : compile params.query with
  | error e => rw [h1] at h; cases h
  | ok r1 =>
    cases h2 : (if params.container ≠ "" then compile params.container
        else .ok matchEverything) with
    | error e => simp only [h1, h2] at h; cases h
    | ok r2 =>
      cases h3 : compileRegexList compile params.include_ with
      | error e => simp only [h1, h2, h3] at h; cases h
      | ok r3 =>
        cases h4 : compileRegexList compile params.exclude with
        | error e => simp only [h1, h2, h3, h4] at h; cases h
        | ok r4 =>
          cases h5 : compileRegexList compile params.highlight with
          | error e => simp only [h1, h2, h3, h4, h5] at h; cases h
          | ok r5 =>
            cases h6 : compileRegexList compile params.excludeContainer with
            | error e => simp only [h1, h2, h3, h4, h5, h6] at h; cases h
            | ok r6 =>
              cases h7 : compileRegexList compile params.excludePod with
              | error e => simp only [h1, h2, h3, h4, h5, h6, h7] at h; cases h
              | ok r7 =>
                simp only [h1, h2, h3, h4, h5, h6, h7] at h
                cases h
                exact ⟨rfl, rfl, rfl, rfl, rfl, rfl, rfl⟩

/-- An error of `parseRegexFilters` names a field that is invalid and carries
the error of the compiler on one of its patterns. -/
theorem parseRegexFilters_error (compile : Compiler) (params : streamParams)
    (msg : GoError) (h : parseRegexFilters compile params = .error msg) :
    ∃ field entry err, InvalidEntry compile params field entry err ∧
      msg = fieldLabel field ++ ": " ++ err := by
  unfold parseRegexFilters at h
  cases h1 : compile params.query with
  | error e =>
    rw [h1] at h
    cases h
    exact ⟨.query, params.query, e, ⟨by simp [fieldEntries], h1⟩, rfl⟩
  | ok r1 =>
    cases h2 : (if params.container ≠ "" then compile params.container
        else .ok matchEverything) with
    | error e =>
      simp only [h1, h2] at h
      cases h
      by_cases hc : params.container = ""
      · simp [hc] at h2
      · rw [if_pos hc] at h2
        exact ⟨.container, params.container, e, ⟨by simp [fieldEntries, hc], h2⟩, rfl⟩
    | ok r2 =>
      cases h3 : compileRegexList compile params.include_ with
      | error e =>
        simp only [h1, h2, h3] at h
        cases h
        obtain ⟨entry, hmem, hent⟩ := compileRegexList_error compile _ _ h3
        exact ⟨.include_, entry, e, ⟨hmem, hent⟩, rfl⟩
      | ok r3 =>
        cases h4 : compileRegexList compile params.exclude with
        | error e =>
          simp only [h1, h2, h3, h4] at h
          cases h
          obtain ⟨entry, hmem, hent⟩ := compileRegexList_error compile _ _ h4
          exact ⟨.exclude, entry, e, ⟨hmem, hent⟩, rfl⟩
        | ok r4 =>
          cases h5 : compileRegexList compile params.highlight with
          | error e =>
            simp only [h1, h2, h3, h4, h5] at h
            cases h
            obtain ⟨entry, hmem, hent⟩ := compileRegexList_error compile _ _ h5
            exact ⟨.highlight, entry, e, ⟨hmem, hent⟩, rfl⟩
          | ok r5 =>
            cases h6 : compileRegexList compile params.excludeContainer with
            | error e =>
              simp only [h1, h2, h3, h4, h5, h6] at h
              cases h
              obtain ⟨entry, hmem, hent⟩ := compileRegexList_error compile _ _ h6
              exact ⟨.excludeContainer, entry, e, ⟨hmem, hent⟩, rfl⟩
            | ok r6 =>
              cases h7 : compileRegexList compile params.excludePod with
              | error e =>
                simp only [h1, h2, h3, h4, h5, h6, h7] at h
                cases h
                obtain ⟨entry, hmem, hent⟩ := compileRegexList_error compile _ _ h7
                exact ⟨.excludePod, entry, e, ⟨hmem, hent⟩, rfl⟩
              | ok r7 =>
                simp only [h1, h2, h3, h4, h5, h6, h7] at h
                cases h

/-- Parameters with an invalid regex field make `parseRegexFilters` fail. -/
theorem parseRegexFilters_error_of_invalid (compile : Compiler) (params : streamParams)
    (h : InvalidRegexField compile params) :
    ∃ msg, parseRegexFilters compile params = .error msg := by
  cases hp : parseRegexFilters compile params with
  | error msg => exact ⟨msg, rfl⟩
  | ok filters =>
    exfalso
    obtain ⟨hq, hc, h3, h4, h5, h6, h7⟩ := parseRegexFilters_ok compile params filters hp
    obtain ⟨field, entry, err, hmem, hent⟩ := h
    have hlist : ∀ (filterStr : String) (regexes : List Regexp),
        compileRegexList compile filterStr = .ok regexes →
          entry ∈ filterEntries filterStr → False := by
      intro filterStr regexes hok hin
      obtain ⟨err', herr⟩ :=
        compileRegexList_error_of_invalid compile filterStr entry err hin hent
      rw [hok] at herr
      cases herr
    cases field with
    | query =>
      simp only [fieldEntries, List.mem_singleton] at hmem
      subst hmem
      rw [hq] at hent
      cases hent
    | container =>
      by_cases h0 : params.container = ""
      · simp [fieldEntries, h0] at hmem
      · simp only [fieldEntries, h0, if_false, List.mem_singleton] at hmem
        subst hmem
        rw [if_pos h0, hent] at hc
        cases hc
    | include_ => exact hlist _ _ h3 hmem
    | exclude => exact hlist _ _ h4 hmem
    | highlight => exact hlist _ _ h5 hmem
    | excludeContainer => exact hlist _ _ h6 hmem
    | excludePod => exact hlist _ _ h7 hmem

/-! ## Theorems: the shape of a session -/

/-- The frames of the loop of `WebSocketWriter.Write` are log frames. -/
theorem writeLines_logFrames (env : Env) (lines : List (List UInt8)) :
    ∀ (n : Nat), ∀ e ∈ (writeLines env n lines).1, ∃ line, e = .logFrame line := by
  induction lines with
  | nil => intro n e he; simp [writeLines] at he
  | cons line lines ih =>
    intro n e he
    unfold writeLines at he
    by_cases h0 : line.length = 0
    · rw [if_pos h0] at he
      exact ih n e he
    · rw [if_neg h0] at he
      cases hw : env.WriteMessage n with
      | some err =>
        rw [hw] at he
        simp only [List.mem_singleton] at he
        exact ⟨line, he⟩
      | none =>
        rw [hw] at he
        simp only [List.mem_cons] at he
        rcases he with he | he
        · exact ⟨line, he⟩
        · exact ih (n + 1) e he

/-- The frames of `WebSocketWriter.Write` are log frames. -/
theorem Write_logFrames (env : Env) (n : Nat) (p : List UInt8) :
    ∀ e ∈ (WebSocketWriter.Write env n p).1, ∃ line, e = .logFrame line := by
  intro e he
  unfold WebSocketWriter.Write at he
  have hl := writeLines_logFrames env (splitOn 10 p) n e
  cases hw : writeLines env n (splitOn 10 p) with
  | mk frames err =>
    rw [hw] at he hl
    cases err with
    | none => exact hl he
    | some err => exact hl he

/-- The frames of a run of the engine are log frames. -/
theorem runEngine_logFrames (env : Env) (engine : Engine) :
    ∀ (n : Nat), ∀ e ∈ (runEngine env n engine).1, ∃ line, e = .logFrame line := by
  induction engine with
  | ret err => intro n e he; simp [runEngine] at he
  | write p next ih =>
    intro n e he
    simp only [runEngine, List.mem_append] at he
    rcases he with he | he
    · exact Write_logFrames env n p e he
    · exact ih _ _ _ e he

/-- The runs of `streamLogs`: the upgrade fails and nothing is written; or a
step of the setup fails, and the session is the upgrade, one error frame with
the error of that step, and the close; or the setup succeeds, and the session
is the upgrade, the start of the engine, its log frames, an error frame if
the engine returns an error, and the close. -/
theorem streamLogs_cases (env : Env) (params : streamParams) :
    ((∃ err, env.Upgrade = .error err) ∧ streamLogs env params = []) ∨
    (env.Upgrade = .ok () ∧ ∃ err,
      (createKubeClient env params.contextName = .error err ∨
        ((∃ client, createKubeClient env params.contextName = .ok client) ∧
          parseSelectors env.labelsParse env.fieldsParseSelector params = .error err) ∨
        ((∃ client, createKubeClient env params.contextName = .ok client) ∧
          (∃ selectors,
            parseSelectors env.labelsParse env.fieldsParseSelector params = .ok selectors) ∧
          parseRegexFilters env.compile params = .error err)) ∧
      streamLogs env params = [.upgrade, .errorFrame (errorMessage err), .close]) ∨
    (env.Upgrade = .ok () ∧ ∃ filters config frames ending,
      parseRegexFilters env.compile params = .ok filters ∧
      (∀ e ∈ frames, ∃ line, e = Event.logFrame line) ∧
      (ending = [] ∨ ∃ err, ending = [.errorFrame (errorMessage ("Stern error: " ++ err))]) ∧
      streamLogs env params =
        .upgrade :: .engineStart config :: (frames ++ ending ++ [.close])) := by
  unfold streamLogs
  cases hu : env.Upgrade with
  | error err => exact Or.inl ⟨⟨err, rfl⟩, rfl⟩
  | ok u =>
    cases u
    right
    cases hk : createKubeClient env params.contextName with
    | error err => exact Or.inl ⟨rfl, err, Or.inl rfl, rfl⟩
    | ok client =>
      obtain ⟨clientset, kubeConfig⟩ := client
      cases hs : parseSelectors env.labelsParse env.fieldsParseSelector params with
      | error err => exact Or.inl ⟨rfl, err, Or.inr (Or.inl ⟨⟨_, rfl⟩, rfl⟩), rfl⟩
      | ok selectors =>
        obtain ⟨labelSelector, fieldSelector⟩ := selectors
        cases hf : parseRegexFilters env.compile params with
        | error err =>
          exact Or.inl ⟨rfl, err, Or.inr (Or.inr ⟨⟨_, rfl⟩, ⟨_, rfl⟩, rfl⟩), rfl⟩
        | ok filters =>
          right
          refine ⟨rfl, filters,
            sessionConfig params kubeConfig labelSelector fieldSelector filters,
            (runEngine env 0 (env.Run clientset
              (sessionConfig params kubeConfig labelSelector fieldSelector filters))).1,
            engineError (runEngine env 0 (env.Run clientset
              (sessionConfig params kubeConfig labelSelector fieldSelector filters))).2,
            rfl, runEngine_logFrames env _ 0, ?_, ?_⟩
          · cases (runEngine env 0 (env.Run clientset
              (sessionConfig params kubeConfig labelSelector fieldSelector filters))).2 with
            | none => exact Or.inl rfl
            | some err => exact Or.inr ⟨err, rfl⟩
          · simp only [List.cons_append, List.append_assoc]

/-! ## Theorems: rejection of invalid filters (C1, C6, C7) -/

/-- C1: for parameters with an invalid regex field `stern.Run` is never
started, and the session ends at the first step of the setup that fails: when
the upgrade fails nothing is written; when the upgrade succeeds and the
creation of the client fails, the one frame written carries that error; when
the client is created and the parsing of the selectors fails, the one frame
written carries that error; and when these three succeed the one frame
written is the error of `parseRegexFilters`, an `InvalidFilterSyntax` error
that names an invalid field, with the error of the compiler. -/
theorem streamLogs_invalid_filter (env : Env) (params : streamParams)
    (h : InvalidRegexField env.compile params) :
    (∀ config, Event.engineStart config ∉ streamLogs env params) ∧
    (((∃ err, env.Upgrade = .error err) ∧ streamLogs env params = []) ∨
      (env.Upgrade = .ok () ∧
        ∃ err, createKubeClient env params.contextName = .error err ∧
          streamLogs env params = [.upgrade, .errorFrame (errorMessage err), .close]) ∨
      (env.Upgrade = .ok () ∧
        (∃ client, createKubeClient env params.contextName = .ok client) ∧
        ∃ err, parseSelectors env.labelsParse env.fieldsParseSelector params = .error err ∧
          streamLogs env params = [.upgrade, .errorFrame (errorMessage err), .close]) ∨
      (env.Upgrade = .ok () ∧
        (∃ client, createKubeClient env params.contextName = .ok client) ∧
        (∃ selectors,
          parseSelectors env.labelsParse env.fieldsParseSelector params = .ok selectors) ∧
        ∃ err, parseRegexFilters env.compile params = .error err ∧
          InvalidFilterSyntax env.compile params (.errorFrame (errorMessage err)) ∧
          streamLogs env params = [.upgrade, .errorFrame (errorMessage err), .close])) := by
  obtain ⟨msg, hmsg⟩ := parseRegexFilters_error_of_invalid env.compile params h
  rcases streamLogs_cases env params with ⟨hu, ht⟩ | ⟨hu, err, hstep, ht⟩ |
    ⟨_, filters, _, _, _, hok, _⟩
  · refine ⟨?_, Or.inl ⟨hu, ht⟩⟩
    intro config hmem
    rw [ht] at hmem
    cases hmem
  · refine ⟨?_, ?_⟩
    · intro config hmem
      rw [ht] at hmem
      simp at hmem
    · rcases hstep with hk | ⟨hk, hs⟩ | ⟨hk, hs, hf⟩
      · exact Or.inr (Or.inl ⟨hu, err, hk, ht⟩)
      · exact Or.inr (Or.inr (Or.inl ⟨hu, hk, err, hs, ht⟩))
      · obtain ⟨field, entry, e, hentry, hlabel⟩ :=
          parseRegexFilters_error env.compile params err hf
        refine Or.inr (Or.inr (Or.inr ⟨hu, hk, hs, err, hf, ⟨field, entry, e, hentry, ?_⟩, ht⟩))
        rw [hlabel]
  · rw [hok] at hmsg
    cases hmsg

/-- C1, at a concrete session: the query `[invalid` on the workstation, where
the upgrade, the client and the selectors succeed: the engine is not
started and the one frame written is the `InvalidFilterSyntax` error of the
query. -/
theorem streamLogs_invalid_filter_witness :
    InvalidRegexField workstation.compile { query := "[invalid" } ∧
    (∀ config, Event.engineStart config ∉ streamLogs workstation { query := "[invalid" }) ∧
    InvalidFilterSyntax workstation.compile { query := "[invalid" }
      (.errorFrame
        "\x7b\"error\":\"invalid query regex: error parsing regexp: missing closing ]: `[invalid`\"\x7d") ∧
    streamLogs workstation { query := "[invalid" } =
      [.upgrade,
        .errorFrame
          "\x7b\"error\":\"invalid query regex: error parsing regexp: missing closing ]: `[invalid`\"\x7d",
        .close] := by
  have h : InvalidRegexField workstation.compile { query := "[invalid" } :=
    ⟨.query, "[invalid", "error parsing regexp: missing closing ]: `[invalid`",
      by decide, by decide⟩
  obtain ⟨hengine, hcases⟩ := streamLogs_invalid_filter workstation { query := "[invalid" } h
  have hfilters : parseRegexFilters workstation.compile { query := "[invalid" } =
      .error "invalid query regex: error parsing regexp: missing closing ]: `[invalid`" := by
    decide
  refine ⟨h, hengine, ?_⟩
  rcases hcases with ⟨⟨e, he⟩, _⟩ | ⟨_, e, hk, _⟩ | ⟨_, _, e, hs, _⟩ |
    ⟨_, _, _, err, hf, hnamed, htrace⟩
  · cases he
  · cases hk
  · cases hs
  · rw [hfilters] at hf
    cases hf
    exact ⟨hnamed, htrace⟩

/-- C1 as stated fails: with the invalid query `[invalid` and a context
`staging` that the kubeconfig does not have, the session ends with the error
of the kubeconfig, and no frame of it is an `InvalidFilterSyntax` error. -/
theorem streamLogs_invalid_filter_counterexample :
    InvalidRegexField workstation.compile { query := "[invalid", contextName := "staging" } ∧
    streamLogs workstation { query := "[invalid", contextName := "staging" } =
      [.upgrade,
        .errorFrame
          "\x7b\"error\":\"failed to load kubeconfig: context \"staging\" does not exist\"\x7d",
        .close] ∧
    ¬ ∃ frame ∈ streamLogs workstation { query := "[invalid", contextName := "staging" },
      InvalidFilterSyntax workstation.compile
        { query := "[invalid", contextName := "staging" } frame := by
  have htrace : streamLogs workstation { query := "[invalid", contextName := "staging" } =
      [.upgrade,
        .errorFrame
          "\x7b\"error\":\"failed to load kubeconfig: context \"staging\" does not exist\"\x7d",
        .close] := by decide
  refine ⟨⟨.query, "[invalid", "error parsing regexp: missing closing ]: `[invalid`",
    by decide, by decide⟩, htrace, ?_⟩
  rintro ⟨frame, hmem, field, entry, err, ⟨hin, hent⟩, hframe⟩
  rw [htrace] at hmem
  subst hframe
  simp only [List.mem_cons, List.mem_singleton, Event.errorFrame.injEq, reduceCtorEq,
    false_or, or_false, List.not_mem_nil] at hmem
  have hquery : workstation.compile "[invalid" =
      .error "error parsing regexp: missing closing ]: `[invalid`" := by decide
  cases field with
  | query =>
    simp only [fieldEntries, List.mem_singleton] at hin
    subst hin
    rw [hquery] at hent
    cases hent
    revert hmem
    decide
  | container => simp [fieldEntries] at hin
  | include_ => simp [fieldEntries, filterEntries_empty] at hin
  | exclude => simp [fieldEntries, filterEntries_empty] at hin
  | highlight => simp [fieldEntries, filterEntries_empty] at hin
  | excludeContainer => simp [fieldEntries, filterEntries_empty] at hin
  | excludePod => simp [fieldEntries, filterEntries_empty] at hin

/-- C6: parameters whose query the regexp compiler rejects make
`parseRegexFilters` fail with the error `invalid query regex` and no filter
set; the query is handed to the compiler as it is, also when it is absent. -/
theorem parseRegexFilters_query_rejected (compile : Compiler) (params : streamParams)
    (err : GoError) (h : compile params.query = .error err) :
    parseRegexFilters compile params = .error ("invalid query regex: " ++ err) := by
  unfold parseRegexFilters
  rw [h]

/-- C6, at a concrete query: `[invalid`. -/
theorem parseRegexFilters_query_rejected_witness :
    regexpCompile "[invalid" = .error "error parsing regexp: missing closing ]: `[invalid`" ∧
    parseRegexFilters regexpCompile { query := "[invalid" } =
      .error "invalid query regex: error parsing regexp: missing closing ]: `[invalid`" :=
  ⟨by decide,
    parseRegexFilters_query_rejected regexpCompile { query := "[invalid" }
      "error parsing regexp: missing closing ]: `[invalid`" (by decide)⟩

/-- C6 as stated fails: with the query absent and no other parameter,
`parseRegexFilters` succeeds; the query pattern is the empty expression. -/
theorem parseRegexFilters_absent_query_counterexample :
    ({ } : streamParams).query = "" ∧
    parseRegexFilters regexpCompile { } =
      .ok ⟨⟨""⟩, matchEverything, [], [], [], [], []⟩ := by
  decide

/-- C7: for parameters with an invalid regex field the rejection comes after
the upgrade and on the upgraded connection: a run of `streamLogs` in which the
upgrade fails writes nothing, and a run in which the upgrade succeeds is the
upgrade, then one error frame, then the close, with no start of the engine;
the frame carries the error of the first step that fails, of the creation of
the client, the parsing of the selectors and the compilation of the
filters. -/
theorem streamLogs_rejects_after_upgrade (env : Env) (params : streamParams)
    (h : InvalidRegexField env.compile params) :
    ((∃ err, env.Upgrade = .error err) ∧ streamLogs env params = []) ∨
    (env.Upgrade = .ok () ∧ ∃ err,
      (createKubeClient env params.contextName = .error err ∨
        ((∃ client, createKubeClient env params.contextName = .ok client) ∧
          parseSelectors env.labelsParse env.fieldsParseSelector params = .error err) ∨
        ((∃ client, createKubeClient env params.contextName = .ok client) ∧
          (∃ selectors,
            parseSelectors env.labelsParse env.fieldsParseSelector params = .ok selectors) ∧
          parseRegexFilters env.compile params = .error err)) ∧
      streamLogs env params = [.upgrade, .errorFrame (errorMessage err), .close]) := by
  obtain ⟨msg, hmsg⟩ := parseRegexFilters_error_of_invalid env.compile params h
  rcases streamLogs_cases env params with ⟨hu, ht⟩ | ⟨hu, err, hstep, ht⟩ |
    ⟨_, filters, _, _, _, hok, _⟩
  · exact Or.inl ⟨hu, ht⟩
  · exact Or.inr ⟨hu, err, hstep, ht⟩
  · rw [hok] at hmsg
    cases hmsg

/-- C7, at a concrete session: the include filter `ok, [bad` on the
workstation, where the upgrade succeeds: the session is the upgrade, the
error frame of the filter and the close. -/
theorem streamLogs_rejects_after_upgrade_witness :
    InvalidRegexField workstation.compile { query := ".", include_ := "ok, [bad" } ∧
    workstation.Upgrade = .ok () ∧
    streamLogs workstation { query := ".", include_ := "ok, [bad" } =
      [.upgrade,
        .errorFrame
          "\x7b\"error\":\"invalid include filter: error parsing regexp: missing closing ]: `[bad`\"\x7d",
        .close] := by
  have h : InvalidRegexField workstation.compile { query := ".", include_ := "ok, [bad" } :=
    ⟨.include_, "[bad", "error parsing regexp: missing closing ]: `[bad`",
      by decide, by decide⟩
  have hfilters : parseRegexFilters workstation.compile
      { query := ".", include_ := "ok, [bad" } =
      .error "invalid include filter: error parsing regexp: missing closing ]: `[bad`" := by
    decide
  refine ⟨h, rfl, ?_⟩
  rcases streamLogs_rejects_after_upgrade workstation
      { query := ".", include_ := "ok, [bad" } h with
    ⟨⟨e, he⟩, _⟩ | ⟨_, err, hstep, htrace⟩
  · cases he
  · rcases hstep with hk | ⟨_, hs⟩ | ⟨_, _, hf⟩
    · cases hk
    · cases hs
    · rw [hfilters] at hf
      cases hf
      exact htrace

/-- C7 as stated fails: with the malformed query `[invalid` the upgrade is
the first event of the session, and the rejection follows it. -/
theorem streamLogs_rejects_after_upgrade_counterexample :
    InvalidRegexField workstation.compile { query := "[invalid" } ∧
    streamLogs workstation { query := "[invalid" } =
      [.upgrade,
        .errorFrame
          "\x7b\"error\":\"invalid query regex: error parsing regexp: missing closing ]: `[invalid`\"\x7d",
        .close] :=
  ⟨⟨.query, "[invalid", "error parsing regexp: missing closing ]: `[invalid`",
    by decide, by decide⟩, by decide⟩

/-! ## Theorems: namespaces and numeric parameters (C2, C3, C4, C5) -/

/-- C2: the function `buildNamespaceList` resolves the namespaces by strict
precedence: `allNamespaces` equal to `true` gives the unrestricted scope,
whatever the namespace; else a given namespace gives that namespace; else the
namespace of the current context, when it has one, gives that; else the
scope is `default`. -/
theorem buildNamespaceList_precedence (params : streamParams) (kubeConfig : ClientConfig) :
    (params.allNamespaces = "true" → buildNamespaceList params kubeConfig = [""]) ∧
    (params.allNamespaces ≠ "true" → params.namespace_ ≠ "" →
      buildNamespaceList params kubeConfig = [params.namespace_]) ∧
    (params.allNamespaces ≠ "true" → params.namespace_ = "" → kubeConfig.Namespace ≠ "" →
      buildNamespaceList params kubeConfig = [kubeConfig.Namespace]) ∧
    (params.allNamespaces ≠ "true" → params.namespace_ = "" → kubeConfig.Namespace = "" →
      buildNamespaceList params kubeConfig = ["default"]) := by
  refine ⟨?_, ?_, ?_, ?_⟩
  · intro h
    simp [buildNamespaceList, h]
  · intro h1 h2
    simp [buildNamespaceList, h1, h2]
  · intro h1 h2 h3
    simp [buildNamespaceList, h1, h2, h3]
  · intro h1 h2 h3
    simp [buildNamespaceList, h1, h2, h3]

/-- C3: a tail parameter that is given and from which `Sscanf` scans no
integer yields the tail limit 0, a pointer to the zero the scan left in `t`:
not the nil pointer (no limit) of an absent tail. -/
theorem parseNumericParams_tail_malformed (params : streamParams)
    (hgiven : params.tail ≠ "") (hscan : scanInt params.tail = none) :
    (parseNumericParams params).1 = some 0 := by
  have hminus : params.tail ≠ "-1" := by
    intro h
    rw [h] at hscan
    revert hscan
    decide
  simp [parseNumericParams, hgiven, hminus, Sscanf, hscan]

/-- C3, at the tail `abc`, next to the absent tail. -/
theorem parseNumericParams_tail_malformed_witness :
    "abc" ≠ "" ∧ scanInt "abc" = none ∧
    (parseNumericParams { tail := "abc" }).1 = some 0 ∧
    (parseNumericParams { }).1 = none :=
  ⟨by decide, by decide,
    parseNumericParams_tail_malformed { tail := "abc" } (by decide) (by decide), by decide⟩

/-- C4: a since parameter that is given and that `time.ParseDuration` rejects
yields the lookback 0, the value that comes with the error: not the 48 hours
of an absent since. -/
theorem parseNumericParams_since_malformed (params : streamParams) (err : GoError)
    (hgiven : params.since ≠ "") (hparse : ParseDuration params.since = .error err) :
    (parseNumericParams params).2.1 = 0 := by
  simp [parseNumericParams, hgiven, hparse]

/-- C4, at the since `abc`, next to the absent since. -/
theorem parseNumericParams_since_malformed_witness :
    "abc" ≠ "" ∧ ParseDuration "abc" = .error "time: invalid duration" ∧
    (parseNumericParams { since := "abc" }).2.1 = 0 ∧
    (parseNumericParams { }).2.1 = 48 * Hour :=
  ⟨by decide, by decide,
    parseNumericParams_since_malformed { since := "abc" } "time: invalid duration"
      (by decide) (by decide), by decide⟩

/-- C9: in a run of `streamLogs` at most one error frame is written, and one
that is written is followed by the close only; before it there is either the
upgrade alone (a failure of the setup: no log frame, no start of the engine)
or the upgrade, the start of the engine and log frames (a failure of the
engine). -/
theorem streamLogs_error_frame_once (env : Env) (params : streamParams) :
    (streamLogs env params).countP Event.isErrorFrame ≤ 1 ∧
    ∀ payload, Event.errorFrame payload ∈ streamLogs env params →
      ∃ before, streamLogs env params = before ++ [.errorFrame payload, .close] ∧
        (before = [.upgrade] ∨
          ∃ config frames, before = .upgrade :: .engineStart config :: frames ∧
            ∀ e ∈ frames, ∃ line, e = Event.logFrame line) := by
  have hcount : ∀ frames : List Event, (∀ e ∈ frames, ∃ line, e = Event.logFrame line) →
      frames.countP Event.isErrorFrame = 0 := by
    intro frames hframes
    rw [List.countP_eq_zero]
    intro e he
    obtain ⟨line, rfl⟩ := hframes e he
    simp [Event.isErrorFrame]
  rcases streamLogs_cases env params with ⟨_, ht⟩ | ⟨_, err, _, ht⟩ |
    ⟨_, filters, config, frames, ending, _, hframes, hend, ht⟩
  · rw [ht]
    simp
  · rw [ht]
    refine ⟨by simp [List.countP_cons, Event.isErrorFrame], ?_⟩
    intro payload hmem
    simp only [List.mem_cons, List.mem_singleton, Event.errorFrame.injEq, reduceCtorEq,
      false_or, or_false, List.not_mem_nil] at hmem
    subst hmem
    exact ⟨[.upgrade], rfl, Or.inl rfl⟩
  · rw [ht]
    rcases hend with rfl | ⟨err, rfl⟩
    · refine ⟨by simp [List.countP_cons, List.countP_append, Event.isErrorFrame,
        hcount frames hframes], ?_⟩
      intro payload hmem
      exfalso
      simp only [List.mem_cons, List.mem_append, List.mem_singleton, reduceCtorEq,
        false_or, or_false, List.not_mem_nil] at hmem
      obtain ⟨line, hline⟩ := hframes _ hmem
      cases hline
    · refine ⟨by simp [List.countP_cons, List.countP_append, Event.isErrorFrame,
        hcount frames hframes], ?_⟩
      intro payload hmem
      simp only [List.mem_cons, List.mem_append, List.mem_singleton, reduceCtorEq,
        false_or, or_false, List.not_mem_nil, Event.errorFrame.injEq] at hmem
      rcases hmem with hmem | hmem
      · obtain ⟨line, hline⟩ := hframes _ hmem
        cases hline
      · subst hmem
        exact ⟨.upgrade :: .engineStart config :: frames, by simp,
          Or.inr ⟨config, frames, rfl, hframes⟩⟩

/-- C10: with the query `["` the error frame of `streamLogs` is not a JSON
object: the double quote of the error text is written as it is and closes
the string of the member `error` before its end. -/
theorem streamLogs_error_frame_not_json :
    streamLogs workstation { query := "[\"" } =
      [.upgrade,
        .errorFrame
          "\x7b\"error\":\"invalid query regex: error parsing regexp: missing closing ]: `[\"`\"\x7d",
        .close] ∧
    decodeErrorObject
      "\x7b\"error\":\"invalid query regex: error parsing regexp: missing closing ]: `[\"`\"\x7d" =
      none ∧
    ¬ WellFormedErrorFrame
      (errorMessage "invalid query regex: error parsing regexp: missing closing ]: `[\"`")
      "invalid query regex: error parsing regexp: missing closing ]: `[\"`" := by
  decide

/-! ## Theorems: the session of the specification (C11) -/

/-- C11: for the parameters query `.`, namespace `default` and tail `100`, every
other parameter absent, in an environment where the upgrade succeeds, the
client of the current context is created and the compiler accepts `.`, the
setup succeeds: the upgrade is followed at once by the start of the engine,
and the configuration it is started with has the namespaces `default` alone,
a tail limit of 100 lines, `Follow` set and a lookback of 48 hours. -/
theorem streamLogs_default_namespace_tail (env : Env) (hupgrade : env.Upgrade = .ok ())
    (hclient : ∃ client, createKubeClient env "" = .ok client)
    (hcompile : ∃ re, env.compile "." = .ok re) :
    ∃ config events,
      streamLogs env { query := ".", namespace_ := "default", tail := "100" } =
        .upgrade :: .engineStart config :: events ∧
      config.Namespaces = ["default"] ∧ config.TailLines = some 100 ∧
      config.Follow = true ∧ config.Since = 48 * Hour := by
  obtain ⟨⟨clientset, kubeConfig⟩, hk⟩ := hclient
  obtain ⟨re, hre⟩ := hcompile
  have hfilters : parseRegexFilters env.compile
      { query := ".", namespace_ := "default", tail := "100" } =
      .ok ⟨re, matchEverything, [], [], [], [], []⟩ := by
    simp [parseRegexFilters, hre, compileRegexList]
  have hselectors : parseSelectors env.labelsParse env.fieldsParseSelector
      { query := ".", namespace_ := "default", tail := "100" } =
      .ok (Selector.Everything, Selector.Everything) := by
    simp [parseSelectors]
  have htrace : streamLogs env { query := ".", namespace_ := "default", tail := "100" } =
      .upgrade :: .engineStart
        (sessionConfig { query := ".", namespace_ := "default", tail := "100" } kubeConfig
          Selector.Everything Selector.Everything ⟨re, matchEverything, [], [], [], [], []⟩) ::
        ((runEngine env 0 (env.Run clientset
          (sessionConfig { query := ".", namespace_ := "default", tail := "100" } kubeConfig
            Selector.Everything Selector.Everything
            ⟨re, matchEverything, [], [], [], [], []⟩))).1 ++
          (engineError (runEngine env 0 (env.Run clientset
            (sessionConfig { query := ".", namespace_ := "default", tail := "100" } kubeConfig
              Selector.Everything Selector.Everything
              ⟨re, matchEverything, [], [], [], [], []⟩))).2 ++ [.close])) := by
    unfold streamLogs
    rw [hupgrade]
    simp only [hk, hselectors, hfilters, List.cons_append, List.append_assoc]
  refine ⟨_, _, htrace, ?_, ?_, ?_, ?_⟩
  · simp only [sessionConfig]
    unfold buildNamespaceList
    rw [if_neg (by decide), if_pos (by decide)]
  · have h : (parseNumericParams { query := ".", namespace_ := "default", tail := "100" }).1 =
        some 100 := by decide
    simp [sessionConfig, h]
  · simp only [sessionConfig]
    decide
  · have h : (parseNumericParams { query := ".", namespace_ := "default", tail := "100" }).2.1 =
        48 * Hour := by decide
    simp [sessionConfig, h]

/-- C11, on the workstation: the three conditions hold there, and the whole
session is the upgrade, the start of the engine, its two log frames and the
close. -/
theorem streamLogs_default_namespace_tail_witness :
    workstation.Upgrade = .ok () ∧
    (∃ client, createKubeClient workstation "" = .ok client) ∧
    (∃ re, workstation.compile "." = .ok re) ∧
    (∃ config events,
      streamLogs workstation { query := ".", namespace_ := "default", tail := "100" } =
        .upgrade :: .engineStart config :: events ∧
      config.Namespaces = ["default"] ∧ config.TailLines = some 100 ∧
      config.Follow = true ∧ config.Since = 48 * Hour) ∧
    (streamLogs workstation { query := ".", namespace_ := "default", tail := "100" }).length = 5 :=
  have hupgrade : workstation.Upgrade = .ok () := rfl
  have hclient : ∃ client, createKubeClient workstation "" = .ok client :=
    ⟨(⟨⟨"https://127.0.0.1:6443"⟩⟩, workstation.NewNonInteractiveDeferredLoadingClientConfig ""),
      by rfl⟩
  have hcompile : ∃ re, workstation.compile "." = .ok re := ⟨⟨"."⟩, by decide⟩
  ⟨hupgrade, hclient, hcompile,
    streamLogs_default_namespace_tail workstation hupgrade hclient hcompile, by decide⟩

/-! ## Theorems: the relay of log lines (C13) -/

/-- On a connection whose writes all succeed the loop of
`WebSocketWriter.Write` writes the lines that are not empty, in order, and
ends without an error. -/
theorem writeLines_all_succeed (env : Env) (hwrites : ∀ k, env.WriteMessage k = none)
    (lines : List (List UInt8)) :
    ∀ n, writeLines env n lines =
      ((lines.filter (fun line => line ≠ [])).map Event.logFrame, none) := by
  induction lines with
  | nil => intro n; simp [writeLines]
  | cons line lines ih =>
    intro n
    unfold writeLines
    by_cases h0 : line = []
    · subst h0
      simp [ih n]
    · have hlen : ¬ line.length = 0 := by
        intro h
        exact h0 (List.length_eq_zero.mp h)
      rw [if_neg hlen, hwrites n, ih (n + 1)]
      simp [List.filter_cons, h0]

/-- C13: on a connection whose writes all succeed, `WebSocketWriter.Write`
sends the segments of `p` between its newline bytes that are not empty, each
as one text message and in the order they have in `p`, and returns
`(len(p), nil)`; the segments are the ones that, joined by newlines, give `p`
back, none of them holding a newline. -/
theorem Write_relays_lines (env : Env) (n : Nat) (p : List UInt8)
    (hwrites : ∀ k, env.WriteMessage k = none) :
    WebSocketWriter.Write env n p =
      (((splitOn 10 p).filter (fun line => line ≠ [])).map Event.logFrame, p.length, none) ∧
    List.intercalate [10] (splitOn 10 p) = p ∧
    ∀ line ∈ splitOn 10 p, (10 : UInt8) ∉ line := by
  refine ⟨?_, splitOn_intercalate 10 p, splitOn_not_mem 10 p⟩
  unfold WebSocketWriter.Write
  rw [writeLines_all_succeed env hwrites]

/-- C13, at a concrete chunk: two lines with an empty line between them and no
newline at the end. -/
theorem Write_relays_lines_witness :
    (∀ k, workstation.WriteMessage k = none) ∧
    WebSocketWriter.Write workstation 0 [0x61, 0x0a, 0x0a, 0x62, 0x63] =
      ([.logFrame [0x61], .logFrame [0x62, 0x63]], 5, none) :=
  ⟨fun _ => rfl,
    (Write_relays_lines workstation 0 [0x61, 0x0a, 0x0a, 0x62, 0x63] (fun _ => rfl)).1.trans
      (by decide)⟩

/-! ## Theorems: the container states (C12) -/

/-- C12: the function `parseContainerStates` returns one state: the default
`stern.RUNNING` (running) for the empty string and for `all`, and any other
string as it is, whatever it is. -/
theorem parseContainerStates_single (containerState : String) :
    (parseContainerStates containerState).length = 1 ∧
    (containerState = "" ∨ containerState = "all" →
      parseContainerStates containerState = [RUNNING]) ∧
    (containerState ≠ "" → containerState ≠ "all" →
      parseContainerStates containerState = [containerState]) := by
  refine ⟨?_, ?_, ?_⟩
  · unfold parseContainerStates
    split_ifs <;> rfl
  · rintro (h | h) <;> simp [parseContainerStates, h]
  · intro h1 h2
    simp [parseContainerStates, h1, h2]

end SternUI
